import Mathlib

/-!
Verification of the cosmic-initiative repository core against its
specification.  The definitions below are shallow embeddings of the Rust
source:

* `Framing` embeds the length-prefixed frame codec of
  cosmic-hyperlane-tcp/src/lib.rs (Frame::to_stream / Frame::from_stream).
* `Handshake` embeds FrameMuxer::handshake of the same file.
* `Registry` embeds PostgresRegistry::register / grant / access of
  cosmic-registry-postgres/src/lib.rs over an explicit relational store.
* `Star` embeds HyperStar::from_hyperway / to_hyperway of
  cosmic-hyperspace/src/star.rs.
* `Search` embeds on_star_search_hop of starlane/src/star.rs.
* `Locator` embeds SmartLocator::locate / provision_inner of
  cosmic-hyperspace/src/star.rs.

Types that live in the cosmic-space crate (points, waves, access values,
permissions) are not part of the sources under verification; where they are
needed they are modelled from the specification and marked as such.
-/

namespace Cosmic

/-! ## Points

Modelled from the spec: an address is an ordered sequence of segments rooted
at a single root (spec section 3).  The route part of a Point plays no role in
any of the verified operations, so a point is its segment list. -/

/-- Modelled from the spec: a hierarchical address; the root has no segments. -/
structure Point where
  segments : List String
deriving DecidableEq, Repr

/-- Rust Point::parent: the address with the last segment removed, or none for
the root. -/
def Point.parentP (p : Point) : Option Point :=
  match p.segments with
  | [] => none
  | _ => some ⟨p.segments.dropLast⟩

/-- Rust Point::is_root / is_local_root: no segments. -/
def Point.isRoot (p : Point) : Bool :=
  p.segments.isEmpty

/-- Modelled from the spec: rendering of an address as a colon separated
segment list (as in the fixture address hyperspace:users:hyperuser). -/
def Point.render (p : Point) : String :=
  String.intercalate ":" p.segments

/-- Modelled from the spec: the well known hyperuser point
hyperspace:users:hyperuser (cosmic_space::HYPERUSER, not under src/). -/
def HYPERUSER : Point :=
  ⟨["hyperspace", "users", "hyperuser"]⟩

end Cosmic

namespace Cosmic.Framing

/-! ## Lane framing (C4)

Embeds Frame::to_stream and Frame::from_stream of
cosmic-hyperlane-tcp/src/lib.rs lines 182-198.  A byte is a Nat < 256; a
stream is the list of bytes in transit. -/

/-- The four big-endian bytes of a u32, as written by tokio write_u32 in
Frame::to_stream. -/
def u32beBytes (n : Nat) : List Nat :=
  [n / 2 ^ 24 % 256, n / 2 ^ 16 % 256, n / 2 ^ 8 % 256, n % 256]

/-- Big-endian recomposition of a byte list, as read by tokio read_u32 in
Frame::from_stream. -/
def beToNat (bs : List Nat) : Nat :=
  bs.foldl (fun a b => a * 256 + b) 0

/-- Frame::to_stream: write the payload length as u32 big-endian (the Rust
cast `len as u32` truncates mod 2^32), then the payload bytes, then flush. -/
def encodeFrame (b : List Nat) : List Nat :=
  u32beBytes (b.length % 2 ^ 32) ++ b

/-- Frame::from_stream: read a 4-byte big-endian size, then loop reading until
exactly size payload bytes have accumulated.  If the stream holds fewer bytes
than a whole frame the reader keeps waiting (result none): an incomplete frame
is never delivered. -/
def decodeFrame (s : List Nat) : Option (List Nat × List Nat) :=
  if s.length < 4 then none
  else
    let size := beToNat (s.take 4)
    let rest := s.drop 4
    if rest.length < size then none
    else some (rest.take size, rest.drop size)

theorem beToNat_u32beBytes (n : Nat) (h : n < 2 ^ 32) :
    beToNat (u32beBytes n) = n := by
  simp only [beToNat, u32beBytes, List.foldl]
  omega

theorem u32beBytes_length (n : Nat) : (u32beBytes n).length = 4 := rfl

/-- C4.  Framing round-trip: for every byte sequence b of length < 2^32,
writing b as a frame (u32 big-endian length, then the payload) and then
reading one frame from the resulting stream yields exactly b, with any bytes
that follow the frame left untouched; a frame is only delivered whole. -/
theorem frame_roundtrip (b extra : List Nat) (h : b.length < 2 ^ 32) :
    decodeFrame (encodeFrame b ++ extra) = some (b, extra) := by
  have hlen : b.length % 2 ^ 32 = b.length := Nat.mod_eq_of_lt h
  have hsize := beToNat_u32beBytes b.length h
  simp only [u32beBytes] at hsize
  simp only [encodeFrame, u32beBytes, hlen, List.cons_append, List.nil_append,
    decodeFrame]
  rw [if_neg (by simp)]
  simp only [List.take_succ_cons, List.take_zero, List.drop_succ_cons,
    List.drop_zero, hsize]
  rw [if_neg (by simp [List.length_append])]
  simp [List.take_left, List.drop_left]

/-- Witness for C4 at a concrete frame. -/
theorem frame_roundtrip_witness :
    ([2, 7, 0] : List Nat).length < 2 ^ 32 ∧
      decodeFrame (encodeFrame [2, 7, 0] ++ [9, 9]) = some ([2, 7, 0], [9, 9]) :=
  ⟨by decide, frame_roundtrip [2, 7, 0] [9, 9] (by decide)⟩

end Cosmic.Framing

namespace Cosmic.Handshake

/-! ## Lane handshake (C5)

Embeds FrameMuxer::handshake of cosmic-hyperlane-tcp/src/lib.rs lines
219-259.  Each side first writes its own version frame; the function below
models the behaviour from the moment the peer version has been read: which
ASCII frames are written afterwards and whether an endpoint is produced.
Timeouts and transport failures are outside the embedding. -/

/-- Modelled from the spec: a semantic-versioning triple (the semver crate is
not part of the repository). -/
structure SemVer where
  major : Nat
  minor : Nat
  patch : Nat
deriving DecidableEq, Repr

/-- Modelled from the spec: the dotted rendering used by semver to_string. -/
def SemVer.render (v : SemVer) : String :=
  toString v.major ++ "." ++ toString v.minor ++ "." ++ toString v.patch

/-- The mismatch frame built in FrameMuxer::handshake:
format!("Err(\"expected version {}. encountered version {}\")", VERSION,
in_version). -/
def mismatchMsg (vLocal vPeer : SemVer) : String :=
  "Err(\"expected version " ++ vLocal.render ++ ". encountered version "
    ++ vPeer.render ++ "\")"

/-- Outcome of a handshake: the ASCII frames written after the peer version
frame was read, whether a HyperwayEndpoint was produced, and the error if
any. -/
structure HandshakeOutcome where
  sent : List String
  endpoint : Bool
  err : Option String
deriving DecidableEq, Repr

/-- FrameMuxer::handshake after reading the peer's version frame: on equal
versions write "Ok" and (if the peer also reported "Ok") produce the
endpoint; on different versions write the Err frame and fail. -/
def handshake (vLocal vPeer : SemVer) (peerStatus : String) : HandshakeOutcome :=
  if vPeer = vLocal then
    if peerStatus = "Ok" then ⟨["Ok"], true, none⟩
    else ⟨["Ok"], false,
      some ("remote did not indicate Ok. expected: 'Ok' encountered '"
        ++ peerStatus ++ "'")⟩
  else
    ⟨[mismatchMsg vLocal vPeer], false, some (mismatchMsg vLocal vPeer)⟩

/-- C5.  Version mismatch handling: when the peer version differs from the
local version the lane sends exactly one ASCII frame
Err("expected version X. encountered version Y") (X local, Y peer, rendered
as semver strings), the handshake returns an error and no endpoint is
produced; when the versions are equal it sends exactly the ASCII frame
"Ok". -/
theorem handshake_version_frames (vLocal vPeer : SemVer) (peerStatus : String) :
    (vPeer ≠ vLocal →
      (handshake vLocal vPeer peerStatus).sent = [mismatchMsg vLocal vPeer] ∧
      (handshake vLocal vPeer peerStatus).endpoint = false ∧
      (handshake vLocal vPeer peerStatus).err = some (mismatchMsg vLocal vPeer)) ∧
    (vPeer = vLocal →
      (handshake vLocal vPeer peerStatus).sent = ["Ok"]) := by
  constructor
  · intro hne
    simp [handshake, hne]
  · intro heq
    by_cases hst : peerStatus = "Ok" <;> simp [handshake, heq, hst]

/-- Witness for C5 at the E3 scenario: local 1.2.3, peer 1.2.4. -/
theorem handshake_version_frames_witness :
    ((handshake ⟨1, 2, 3⟩ ⟨1, 2, 4⟩ "Ok").sent
        = ["Err(\"expected version 1.2.3. encountered version 1.2.4\")"] ∧
      (handshake ⟨1, 2, 3⟩ ⟨1, 2, 4⟩ "Ok").endpoint = false ∧
      (handshake ⟨1, 2, 3⟩ ⟨1, 2, 4⟩ "Ok").err
        = some "Err(\"expected version 1.2.3. encountered version 1.2.4\")") ∧
    (handshake ⟨1, 2, 3⟩ ⟨1, 2, 3⟩ "Ok").sent = ["Ok"] := by
  refine ⟨?_, ?_⟩
  · have h := (handshake_version_frames ⟨1, 2, 3⟩ ⟨1, 2, 4⟩ "Ok").1 (by decide)
    simpa [mismatchMsg, SemVer.render] using h
  · exact (handshake_version_frames ⟨1, 2, 3⟩ ⟨1, 2, 3⟩ "Ok").2 rfl

end Cosmic.Handshake

namespace Cosmic.Registry

open Cosmic

/-! ## Registry store (C1, C2, C3, C10)

Embeds the relational model of cosmic-registry-postgres/src/lib.rs: the
particles table (point unique), the properties table and the access_grants
table, together with PostgresRegistry::register, grant, query and access.
Access values, permissions and selectors live in cosmic_space::security which
is not under src/; they are modelled from the specification (section 3,
"Access grant", and section 4.6). -/

/-- Modelled from the spec: particle lifecycle status (section 3). -/
inductive Status where
  | pending
  | initStatus
  | ready
  | panicStatus
  | fatal
  | unknown
deriving DecidableEq, Repr

/-- A row of the particles table (the columns used by the verified
operations: point, base kind, owner, status, location star/host). -/
structure ParticleRow where
  point : Point
  kindBase : String
  owner : Point
  status : Status
  star : Option Point
  host : Option Point
deriving DecidableEq, Repr

/-- A row of the properties table, keyed by the owning particle's point
(resource_id resolves to the particle row inserted for that point). -/
structure PropRow where
  resource : Point
  key : String
  value : String
  lock : Bool
deriving DecidableEq, Repr

/-- Modelled from the spec: permissions are the tuple
(create, select, delete, read, write, execute) of granted bits. -/
structure Permissions where
  createP : Bool
  selectP : Bool
  deleteP : Bool
  readP : Bool
  writeP : Bool
  executeP : Bool
deriving DecidableEq, Repr

/-- Rust Permissions::none(): nothing granted. -/
def Permissions.nonePerm : Permissions :=
  ⟨false, false, false, false, false, false⟩

/-- Rust Permissions::or: bitwise widening. -/
def Permissions.or (p q : Permissions) : Permissions :=
  ⟨p.createP || q.createP, p.selectP || q.selectP, p.deleteP || q.deleteP,
    p.readP || q.readP, p.writeP || q.writeP, p.executeP || q.executeP⟩

/-- Rust Permissions::and: bitwise narrowing. -/
def Permissions.and (p q : Permissions) : Permissions :=
  ⟨p.createP && q.createP, p.selectP && q.selectP, p.deleteP && q.deleteP,
    p.readP && q.readP, p.writeP && q.writeP, p.executeP && q.executeP⟩

/-- Pointwise comparison: every bit granted by p is granted by q. -/
def Permissions.le (p q : Permissions) : Prop :=
  (p.createP = true → q.createP = true) ∧ (p.selectP = true → q.selectP = true)
    ∧ (p.deleteP = true → q.deleteP = true) ∧ (p.readP = true → q.readP = true)
    ∧ (p.writeP = true → q.writeP = true)
    ∧ (p.executeP = true → q.executeP = true)

instance (p q : Permissions) : Decidable (Permissions.le p q) := by
  unfold Permissions.le; infer_instance

/-- Modelled from the spec: an Or mask widens, an And mask narrows. -/
inductive PermissionsMaskKind where
  | orMask
  | andMask
deriving DecidableEq, Repr

/-- Modelled from the spec: a permissions mask. -/
structure PermissionsMask where
  kind : PermissionsMaskKind
  permissions : Permissions
deriving DecidableEq, Repr

/-- Modelled from the spec: a privilege is a named right. -/
abbrev Privilege := String

/-- Modelled from the spec: the three grant kinds of section 3. -/
inductive AccessGrantKind where
  | superGrant
  | privilege (p : Privilege)
  | permissionsMask (mask : PermissionsMask)

/-- Modelled from the spec: a point hierarchy entry assembled by query:
a segment together with the kind registered at that segment. -/
structure PointKindSeg where
  segment : String
  kind : String
deriving DecidableEq, Repr

/-- Modelled from the spec: the hierarchy from root to a point. -/
abbrev PointHierarchy := List PointKindSeg

/-- Modelled from the spec: a selector is an abstract pattern over point
hierarchies (cosmic_space::selector::Selector is not under src/); the access
algorithm only ever applies Selector::matches to a hierarchy. -/
abbrev Selector := PointHierarchy → Bool

/-- A row of the access_grants table.  queryRoot is the stored query_root
column, which PostgresRegistry::grant fills with on_point.query_root(). -/
structure AccessGrant where
  kind : AccessGrantKind
  onPoint : Selector
  toPoint : Selector
  byParticle : Point
  queryRoot : Point

/-- The registry store: the three tables used by the verified operations. -/
structure Store where
  particles : List ParticleRow
  properties : List PropRow
  grants : List AccessGrant

/-- PostgresRegistry::grant: a new grant row is appended to the
access_grants table; the particle tables are untouched. -/
def Store.addGrant (s : Store) (g : AccessGrant) : Store :=
  { s with grants := s.grants ++ [g] }

/-- Modelled from the spec: registration strategy (section 4.6). -/
inductive Strategy where
  | commit
  | ensure
  | overrideS
deriving DecidableEq, Repr

/-- Modelled from the spec: a property mod is Set{key,value,lock} or
UnSet(key) (section 4.6). -/
inductive PropertyMod where
  | set (key value : String) (lock : Bool)
  | unSet (key : String)

/-- Modelled from the spec: a Registration as consumed by register
(cosmic_hyperspace::reg::Registration is not under src/): the point, its
kind, owner, the requested strategy and status, and initial properties. -/
structure Registration where
  point : Point
  kindBase : String
  owner : Point
  strategy : Strategy
  status : Status
  properties : List (String × PropertyMod)

/-- Registry error taxonomy for the verified operations. -/
inductive RegErr where
  | dupe
  | msg (m : String)
deriving DecidableEq, Repr

/-- One PropertyMod applied inside the register transaction (lib.rs lines
276-291): Set inserts a property row for the new particle; UnSet deletes the
matching unlocked row. -/
def applyPropertyMod (point : Point) (props : List PropRow) :
    PropertyMod → List PropRow
  | .set k v lock => props ++ [⟨point, k, v, lock⟩]
  | .unSet k =>
      props.filter fun r =>
        !(decide (r.resource = point) && decide (r.key = k) && !r.lock)

/-- PostgresRegistry::register (lib.rs lines 228-294).  Counts the particle
rows with the registration's point: on a duplicate the transaction is rolled
back and Ensure/Override succeed silently while Commit fails with Dupe;
otherwise a particle row is inserted with status hard-coded to 'Pending'
(the registration's own status is not part of the INSERT) and the property
mods are applied. -/
def register (s : Store) (reg : Registration) : Except RegErr Store :=
  let count := (s.particles.filter fun r => decide (r.point = reg.point)).length
  if count > 0 then
    if reg.strategy = Strategy.ensure ∨ reg.strategy = Strategy.overrideS then
      Except.ok s
    else
      Except.error RegErr.dupe
  else
    let row : ParticleRow :=
      { point := reg.point, kindBase := reg.kindBase, owner := reg.owner,
        status := Status.pending, star := none, host := none }
    let props :=
      reg.properties.foldl (fun ps kv => applyPropertyMod reg.point ps kv.2)
        s.properties
    Except.ok { s with particles := s.particles ++ [row], properties := props }

/-- C3.  Duplicate registration: when the registration's point already exists
in the particles table, register with strategy Commit fails with Dupe and
leaves the store unchanged, while register with strategy Ensure or Override
returns Ok with the store unchanged (idempotent). -/
theorem register_duplicate (s : Store) (reg : Registration)
    (hdupe : ∃ r ∈ s.particles, r.point = reg.point) :
    (reg.strategy = Strategy.commit →
      register s reg = Except.error RegErr.dupe) ∧
    (reg.strategy = Strategy.ensure ∨ reg.strategy = Strategy.overrideS →
      register s reg = Except.ok s) := by
  obtain ⟨r, hr, hpt⟩ := hdupe
  have hcount :
      0 < (s.particles.filter fun r => decide (r.point = reg.point)).length := by
    have : r ∈ s.particles.filter fun r => decide (r.point = reg.point) := by
      simp [List.mem_filter, hr, hpt]
    exact List.length_pos.mpr (List.ne_nil_of_mem this)
  constructor
  · intro hc
    simp only [register, if_pos hcount]
    rw [if_neg]
    rintro (h | h) <;> rw [hc] at h <;> exact Strategy.noConfusion h
  · intro hs
    simp only [register, if_pos hcount, if_pos hs]

/-- Witness for C3: a concrete duplicate Commit registration fails with Dupe
and a duplicate Ensure registration is a silent no-op. -/
theorem register_duplicate_witness :
    (register
        ⟨[⟨⟨["space"]⟩, "Space", HYPERUSER, Status.ready, none, none⟩], [], []⟩
        ⟨⟨["space"]⟩, "Space", HYPERUSER, Strategy.commit, Status.unknown, []⟩
      = Except.error RegErr.dupe) ∧
    (register
        ⟨[⟨⟨["space"]⟩, "Space", HYPERUSER, Status.ready, none, none⟩], [], []⟩
        ⟨⟨["space"]⟩, "Space", HYPERUSER, Strategy.ensure, Status.unknown, []⟩
      = Except.ok
        ⟨[⟨⟨["space"]⟩, "Space", HYPERUSER, Status.ready, none, none⟩], [], []⟩) :=
  ⟨(register_duplicate _ _ ⟨_, List.mem_singleton.mpr rfl, rfl⟩).1 rfl,
    (register_duplicate _ _ ⟨_, List.mem_singleton.mpr rfl, rfl⟩).2 (Or.inl rfl)⟩

/-- C10.  Every particle row created by a successful register has status
Pending in the store, whatever status the Registration carried: any row of
the resulting particle table is either an old row or has status Pending. -/
theorem register_status_pending (s : Store) (reg : Registration) (s' : Store)
    (h : register s reg = Except.ok s') :
    ∀ r ∈ s'.particles, r ∈ s.particles ∨ r.status = Status.pending := by
  intro r hr
  by_cases hcount :
      0 < (s.particles.filter fun r => decide (r.point = reg.point)).length
  · simp only [register, if_pos hcount] at h
    split at h
    · cases h
      exact Or.inl hr
    · cases h
  · simp only [register, if_neg hcount] at h
    cases h
    simp only [List.mem_append] at hr
    rcases hr with hr | hr
    · exact Or.inl hr
    · right
      rw [List.mem_singleton.mp hr]

/-- Witness for C10: a registration submitted with status Unknown is stored
with status Pending. -/
theorem register_status_pending_witness :
    register (⟨[], [], []⟩ : Store)
        ⟨⟨["space"]⟩, "Space", HYPERUSER, Strategy.commit, Status.unknown, []⟩
      = Except.ok
        ⟨[⟨⟨["space"]⟩, "Space", HYPERUSER, Status.pending, none, none⟩], [], []⟩ ∧
    ∀ r ∈ [(⟨⟨["space"]⟩, "Space", HYPERUSER, Status.pending, none, none⟩ :
        ParticleRow)],
      r ∈ ([] : List ParticleRow) ∨ r.status = Status.pending :=
  ⟨rfl, register_status_pending ⟨[], [], []⟩
    ⟨⟨["space"]⟩, "Space", HYPERUSER, Strategy.commit, Status.unknown, []⟩
    _ rfl⟩

/-! ### Access evaluation

Embeds PostgresRegistry::access (lib.rs lines 776-903) together with the
query / record lookups it performs.  The recursion of access through the
grantor of each grant is not structurally bounded in the source (grant
chains may cycle), so the embedding takes a fuel parameter; exhausting the
fuel is an error, mirroring a non-terminating database recursion. -/

/-- Modelled from the spec: the access enum - Super, SuperOwner, Owner or
Enumerated{privileges, permissions} (cosmic_space::security::Access is not
under src/). -/
inductive Access where
  | superAccess
  | superOwner
  | owner
  | enumerated (privileges : List Privilege) (permissions : Permissions)
deriving DecidableEq, Repr

/-- Rust Access::has_super: Super or SuperOwner. -/
def Access.hasSuper : Access → Bool
  | .superAccess => true
  | .superOwner => true
  | _ => false

/-- Rust Access::has_full: Super, SuperOwner or Owner (spec: "has full
access" = Super or SuperOwner or Owner). -/
def Access.hasFull : Access → Bool
  | .superAccess => true
  | .superOwner => true
  | .owner => true
  | _ => false

/-- PostgresRegistry::record for a non-root point: fetch the unique particle
row; a missing row is a database error.  For the local root the source
returns the synthetic ParticleRecord::root(); its kind is Root and, the root
being provisioned by convention (spec section 4.5), it carries a star. -/
def recordFor (rows : List ParticleRow) (p : Point) : Except String ParticleRow :=
  if p.isRoot then
    Except.ok
      { point := ⟨[]⟩, kindBase := "Root", owner := HYPERUSER,
        status := Status.ready, star := some ⟨["ROOT"]⟩, host := none }
  else
    match rows.find? (fun r => decide (r.point = p)) with
    | some r => Except.ok r
    | none => Except.error ("record not found: " ++ p.render)

/-- PostgresRegistry::query with Query::PointHierarchy (lib.rs lines
498-526): walk the point's segments from the root down, fetch each prefix's
record and assemble (segment, kind) pairs; a missing ancestor is an error. -/
def queryAux (rows : List ParticleRow) (pre : List String) :
    List String → Except String PointHierarchy
  | [] => Except.ok []
  | seg :: rest =>
    let pre' := pre ++ [seg]
    match recordFor rows ⟨pre'⟩ with
    | Except.error e => Except.error e
    | Except.ok r =>
      match queryAux rows pre' rest with
      | Except.error e => Except.error e
      | Except.ok tail => Except.ok (⟨seg, r.kindBase⟩ :: tail)

/-- The hierarchy of a point, assembled by query. -/
def queryHierarchy (rows : List ParticleRow) (p : Point) :
    Except String PointHierarchy :=
  queryAux rows [] p.segments

/-- The traversal points of the access walk: on, its parent, ... down to the
root (the loop of lib.rs lines 818-882 pops one segment per iteration and
runs once for the root).  Structured over the reversed segment list so that
the kernel can evaluate it. -/
def levelsRev : List String → List Point
  | [] => [⟨[]⟩]
  | s :: rest => ⟨(s :: rest).reverse⟩ :: levelsRev rest

/-- The levels walked by access for a target point, leaf first. -/
def traversalLevels (p : Point) : List Point :=
  levelsRev p.segments.reverse

/-- The accumulator threaded through the grant walk: the privileges unioned
so far and the Or-masked permissions. -/
structure EnumAccum where
  privileges : List Privilege
  permissions : Permissions
deriving DecidableEq, Repr

/-- The one-level grant fetch of the access loop: the access_grants rows
whose query_root is the traversal point, retained when their to / on
selectors match the respective hierarchies. -/
def grantsAtLevel (grants : List AccessGrant) (lvl : Point)
    (toPath onPath : PointHierarchy) : List AccessGrant :=
  (grants.filter fun g => decide (g.queryRoot = lvl)).filter
    fun g => g.toPoint toPath && g.onPoint onPath

/-- The permissions update a PermissionsMask grant applies inside the grant
loop: Or the mask in when the grantor has full access and the mask is an Or
mask; otherwise nothing (And masks are collected separately). -/
def permGrantStep (full : Bool) (mask : PermissionsMask) (st : EnumAccum) :
    EnumAccum :=
  if full = true ∧ mask.kind = PermissionsMaskKind.orMask then
    { st with permissions := st.permissions.or mask.permissions }
  else st

/-- The grant loop of access (lib.rs lines 830-855): evaluate the grantor's
own access for every retained grant; a Super grant whose grantor has super
returns immediately (SuperOwner when to owns on, Super otherwise); a
Privilege grant whose grantor has full access unions the privilege; an Or
mask whose grantor has full access widens the permissions. -/
def processGrants (recur : Point → Except String Access) (ho : Bool) :
    List AccessGrant → EnumAccum → Except String (Sum Access EnumAccum)
  | [], st => Except.ok (Sum.inr st)
  | g :: gs, st =>
    match recur g.byParticle with
    | Except.error e => Except.error e
    | Except.ok byAccess =>
      match g.kind with
      | AccessGrantKind.superGrant =>
        if byAccess.hasSuper then
          Except.ok (Sum.inl (if ho then Access.superOwner else Access.superAccess))
        else
          processGrants recur ho gs st
      | AccessGrantKind.privilege p =>
        processGrants recur ho gs
          (if byAccess.hasFull then
            { st with privileges := st.privileges ++ [p] }
          else st)
      | AccessGrantKind.permissionsMask mask =>
        processGrants recur ho gs (permGrantStep byAccess.hasFull mask st)

/-- The And masks of one level's retained grants (the second retain of
lib.rs lines 856-872), saved for application after the walk. -/
def andMasksOf (gs : List AccessGrant) : List PermissionsMask :=
  gs.filterMap fun g =>
    match g.kind with
    | AccessGrantKind.permissionsMask m =>
      if m.kind = PermissionsMaskKind.andMask then some m else none
    | _ => none

/-- The traversal loop of access: walk the levels leaf to root, run the
grant loop at each level and save that level's And masks. -/
def levelLoop (recur : Point → Except String Access)
    (grants : List AccessGrant) (ho : Bool) (toPath onPath : PointHierarchy) :
    List Point → EnumAccum → List (List PermissionsMask) →
      Except String (Sum Access (EnumAccum × List (List PermissionsMask)))
  | [], st, ands => Except.ok (Sum.inr (st, ands))
  | lvl :: rest, st, ands =>
    let gs := grantsAtLevel grants lvl toPath onPath
    match processGrants recur ho gs st with
    | Except.error e => Except.error e
    | Except.ok (Sum.inl a) => Except.ok (Sum.inl a)
    | Except.ok (Sum.inr st') =>
      levelLoop recur grants ho toPath onPath rest st' (ands ++ [andMasksOf gs])

/-- One level of And masks applied in order. -/
def foldAndLevel (masks : List PermissionsMask) (p : Permissions) : Permissions :=
  masks.foldl (fun pm m => pm.and m.permissions) p

/-- The And masks applied after the walk, in root-to-leaf order
(level_ands.reverse() then nested iteration, lib.rs lines 888-893). -/
def applyAnds (ands : List (List PermissionsMask)) (p : Permissions) :
    Permissions :=
  ands.reverse.foldl (fun pm lvl => foldAndLevel lvl pm) p

/-- PostgresRegistry::access (lib.rs lines 776-903).  The hyperuser check
comes first and, as written in the source, returns Super when the hyperuser
owns the target and SuperOwner when it does not; then the owner check; then
the leaf-to-root walk over the grants, and finally Owner (when to owns on)
or the enumerated result with the And masks applied root to leaf. -/
def access : Nat → Store → Point → Point → Except String Access
  | 0, _, _, _ => Except.error "access recursion exhausted"
  | fuel + 1, s, toP, onP =>
    let hasOwner :=
      s.particles.any fun r => decide (r.point = onP) && decide (r.owner = toP)
    if toP = HYPERUSER then
      if hasOwner then Except.ok Access.superAccess
      else Except.ok Access.superOwner
    else if toP = onP ∧ hasOwner = true then
      Except.ok Access.owner
    else
      match queryHierarchy s.particles toP with
      | Except.error e => Except.error e
      | Except.ok toPath =>
        match queryHierarchy s.particles onP with
        | Except.error e => Except.error e
        | Except.ok onPath =>
          match levelLoop (fun b => access fuel s b onP) s.grants hasOwner
              toPath onPath (traversalLevels onP) ⟨[], Permissions.nonePerm⟩ [] with
          | Except.error e => Except.error e
          | Except.ok (Sum.inl a) => Except.ok a
          | Except.ok (Sum.inr (st, ands)) =>
            if hasOwner then Except.ok Access.owner
            else Except.ok
              (Access.enumerated st.privileges (applyAnds ands st.permissions))

set_option maxHeartbeats 1000000 in
/-- C1.  What the source actually does on the hyperuser branch (lib.rs lines
797-803): access returns Super when the hyperuser owns the target and
SuperOwner when it does not - the reverse of the specified orientation, and
the reverse of the orientation used by the Super-grant branch of the same
function (lib.rs lines 833-840).  Left conjunct: the hyperuser owns app,
yet plain Super comes back; right conjunct: the hyperuser does not own app,
yet SuperOwner comes back. -/
theorem access_hyperuser_swapped :
    access 1 ⟨[⟨⟨["app"]⟩, "App", HYPERUSER, Status.ready, none, none⟩], [], []⟩
        HYPERUSER ⟨["app"]⟩ = Except.ok Access.superAccess ∧
    access 1 ⟨[⟨⟨["app"]⟩, "App", ⟨["scott"]⟩, Status.ready, none, none⟩], [], []⟩
        HYPERUSER ⟨["app"]⟩ = Except.ok Access.superOwner :=
  ⟨rfl, rfl⟩

/-! ### Monotonicity of access under a new mask grant (C2) -/

/-- Privilege containment: every privilege of the first list is in the
second. -/
def privSub (a b : List Privilege) : Prop :=
  ∀ x, x ∈ a → x ∈ b

theorem privSub_refl (a : List Privilege) : privSub a a :=
  fun _ h => h

theorem privSub_append (a b : List Privilege) (p : Privilege)
    (h : privSub a b) : privSub (a ++ [p]) (b ++ [p]) := by
  intro x hx
  rcases List.mem_append.mp hx with hx | hx
  · exact List.mem_append.mpr (Or.inl (h x hx))
  · exact List.mem_append.mpr (Or.inr hx)

theorem bLe_or_left (a m : Bool) : a = true → (a || m) = true := by
  cases a <;> simp

theorem bLe_or_mono (a b m : Bool) (h : a = true → b = true) :
    (a || m) = true → (b || m) = true := by
  cases a <;> cases b <;> cases m <;> simp_all

theorem bLe_and_mono (a b m : Bool) (h : a = true → b = true) :
    (a && m) = true → (b && m) = true := by
  cases a <;> cases b <;> cases m <;> simp_all

theorem bLe_and_left (a m : Bool) : (a && m) = true → a = true := by
  cases a <;> simp

theorem Permissions.le_refl (p : Permissions) : Permissions.le p p :=
  ⟨id, id, id, id, id, id⟩

theorem Permissions.le_trans (p q r : Permissions) (h₁ : Permissions.le p q)
    (h₂ : Permissions.le q r) : Permissions.le p r := by
  obtain ⟨a1, a2, a3, a4, a5, a6⟩ := h₁
  obtain ⟨b1, b2, b3, b4, b5, b6⟩ := h₂
  exact ⟨fun h => b1 (a1 h), fun h => b2 (a2 h), fun h => b3 (a3 h),
    fun h => b4 (a4 h), fun h => b5 (a5 h), fun h => b6 (a6 h)⟩

theorem Permissions.le_or_left (p m : Permissions) :
    Permissions.le p (p.or m) :=
  ⟨bLe_or_left _ _, bLe_or_left _ _, bLe_or_left _ _, bLe_or_left _ _,
    bLe_or_left _ _, bLe_or_left _ _⟩

theorem Permissions.or_mono (p q m : Permissions) (h : Permissions.le p q) :
    Permissions.le (p.or m) (q.or m) := by
  obtain ⟨a1, a2, a3, a4, a5, a6⟩ := h
  exact ⟨bLe_or_mono _ _ _ a1, bLe_or_mono _ _ _ a2, bLe_or_mono _ _ _ a3,
    bLe_or_mono _ _ _ a4, bLe_or_mono _ _ _ a5, bLe_or_mono _ _ _ a6⟩

theorem Permissions.and_mono (p q m : Permissions) (h : Permissions.le p q) :
    Permissions.le (p.and m) (q.and m) := by
  obtain ⟨a1, a2, a3, a4, a5, a6⟩ := h
  exact ⟨bLe_and_mono _ _ _ a1, bLe_and_mono _ _ _ a2, bLe_and_mono _ _ _ a3,
    bLe_and_mono _ _ _ a4, bLe_and_mono _ _ _ a5, bLe_and_mono _ _ _ a6⟩

theorem Permissions.and_le_left (p m : Permissions) :
    Permissions.le (p.and m) p :=
  ⟨bLe_and_left _ _, bLe_and_left _ _, bLe_and_left _ _, bLe_and_left _ _,
    bLe_and_left _ _, bLe_and_left _ _⟩

/-- Accumulator growth: the second accumulator dominates the first. -/
def accumLe (u v : EnumAccum) : Prop :=
  privSub u.privileges v.privileges ∧ Permissions.le u.permissions v.permissions

/-- How adding one PermissionsMask grant of kind mk may change an access
result: Super, SuperOwner and Owner results are retained exactly; an
enumerated result may only widen (Or mask) or narrow (And mask). -/
def grantRel (mk : PermissionsMaskKind) : Access → Access → Prop
  | Access.superAccess, Access.superAccess => True
  | Access.superOwner, Access.superOwner => True
  | Access.owner, Access.owner => True
  | Access.enumerated pv pm, Access.enumerated pv' pm' =>
    match mk with
    | PermissionsMaskKind.orMask => privSub pv pv' ∧ Permissions.le pm pm'
    | PermissionsMaskKind.andMask => privSub pv' pv ∧ Permissions.le pm' pm
  | _, _ => False

theorem grantRel_refl (mk : PermissionsMaskKind) (a : Access) :
    grantRel mk a a := by
  cases a <;> cases mk <;>
    simp [grantRel, privSub_refl, Permissions.le_refl]

theorem grantRel_classifiers (mk : PermissionsMaskKind) (a b : Access)
    (h : grantRel mk a b) : a.hasSuper = b.hasSuper ∧ a.hasFull = b.hasFull := by
  cases a <;> cases b <;> simp_all [grantRel, Access.hasSuper, Access.hasFull]

theorem processGrants_cons_error (recur : Point → Except String Access)
    (ho : Bool) (g : AccessGrant) (gs : List AccessGrant) (st : EnumAccum)
    (e : String) (h : recur g.byParticle = Except.error e) :
    processGrants recur ho (g :: gs) st = Except.error e := by
  simp [processGrants, h]

theorem processGrants_cons_super_hit (recur : Point → Except String Access)
    (ho : Bool) (g : AccessGrant) (gs : List AccessGrant) (st : EnumAccum)
    (a : Access) (h : recur g.byParticle = Except.ok a)
    (hk : g.kind = AccessGrantKind.superGrant) (hs : a.hasSuper = true) :
    processGrants recur ho (g :: gs) st =
      Except.ok (Sum.inl (if ho then Access.superOwner else Access.superAccess)) := by
  simp [processGrants, h, hk, hs]

theorem processGrants_cons_super_miss (recur : Point → Except String Access)
    (ho : Bool) (g : AccessGrant) (gs : List AccessGrant) (st : EnumAccum)
    (a : Access) (h : recur g.byParticle = Except.ok a)
    (hk : g.kind = AccessGrantKind.superGrant) (hs : a.hasSuper = false) :
    processGrants recur ho (g :: gs) st = processGrants recur ho gs st := by
  simp [processGrants, h, hk, hs]

theorem processGrants_cons_priv (recur : Point → Except String Access)
    (ho : Bool) (g : AccessGrant) (gs : List AccessGrant) (st : EnumAccum)
    (a : Access) (p : Privilege) (h : recur g.byParticle = Except.ok a)
    (hk : g.kind = AccessGrantKind.privilege p) :
    processGrants recur ho (g :: gs) st =
      processGrants recur ho gs
        (if a.hasFull then { st with privileges := st.privileges ++ [p] }
         else st) := by
  simp [processGrants, h, hk]

theorem processGrants_cons_mask (recur : Point → Except String Access)
    (ho : Bool) (g : AccessGrant) (gs : List AccessGrant) (st : EnumAccum)
    (a : Access) (m : PermissionsMask) (h : recur g.byParticle = Except.ok a)
    (hk : g.kind = AccessGrantKind.permissionsMask m) :
    processGrants recur ho (g :: gs) st =
      processGrants recur ho gs (permGrantStep a.hasFull m st) := by
  simp [processGrants, h, hk]

/-- Core relational lemma for the grant loop: when the two grantor oracles
agree on the super / full classification of every grantor, running the loop
over the same grant list from R-related accumulators either early-returns
the same Super value on both sides or ends in R-related accumulators. -/
theorem processGrants_rel (recur₁ recur₂ : Point → Except String Access)
    (ho : Bool) (R : EnumAccum → EnumAccum → Prop)
    (hrec : ∀ p a b, recur₁ p = Except.ok a → recur₂ p = Except.ok b →
      a.hasSuper = b.hasSuper ∧ a.hasFull = b.hasFull)
    (hpriv : ∀ u v p, R u v →
      R { u with privileges := u.privileges ++ [p] }
        { v with privileges := v.privileges ++ [p] })
    (hperm : ∀ u v f m, R u v → R (permGrantStep f m u) (permGrantStep f m v)) :
    ∀ L u v r₁ r₂, R u v →
      processGrants recur₁ ho L u = Except.ok r₁ →
      processGrants recur₂ ho L v = Except.ok r₂ →
      (∃ a, r₁ = Sum.inl a ∧ r₂ = Sum.inl a) ∨
      (∃ u' v', r₁ = Sum.inr u' ∧ r₂ = Sum.inr v' ∧ R u' v') := by
  intro L
  induction L with
  | nil =>
    intro u v r₁ r₂ hR h₁ h₂
    simp only [processGrants, Except.ok.injEq] at h₁ h₂
    exact Or.inr ⟨u, v, h₁.symm, h₂.symm, hR⟩
  | cons g gs ih =>
    intro u v r₁ r₂ hR h₁ h₂
    cases ha : recur₁ g.byParticle with
    | error e =>
      rw [processGrants_cons_error recur₁ ho g gs u e ha] at h₁
      exact Except.noConfusion h₁
    | ok a =>
      cases hb : recur₂ g.byParticle with
      | error e =>
        rw [processGrants_cons_error recur₂ ho g gs v e hb] at h₂
        exact Except.noConfusion h₂
      | ok b =>
        obtain ⟨hsup, hfull⟩ := hrec g.byParticle a b ha hb
        cases hk : g.kind with
        | superGrant =>
          cases hs : a.hasSuper with
          | true =>
            rw [processGrants_cons_super_hit recur₁ ho g gs u a ha hk hs] at h₁
            rw [processGrants_cons_super_hit recur₂ ho g gs v b hb hk
              (hsup ▸ hs)] at h₂
            cases h₁; cases h₂
            exact Or.inl ⟨_, rfl, rfl⟩
          | false =>
            rw [processGrants_cons_super_miss recur₁ ho g gs u a ha hk hs] at h₁
            rw [processGrants_cons_super_miss recur₂ ho g gs v b hb hk
              (hsup ▸ hs)] at h₂
            exact ih u v r₁ r₂ hR h₁ h₂
        | privilege p =>
          rw [processGrants_cons_priv recur₁ ho g gs u a p ha hk] at h₁
          rw [processGrants_cons_priv recur₂ ho g gs v b p hb hk] at h₂
          cases hf : a.hasFull with
          | true =>
            have hbf : b.hasFull = true := hfull.symm.trans hf
            rw [hf] at h₁; rw [hbf] at h₂
            simp only [if_pos] at h₁ h₂
            exact ih _ _ r₁ r₂ (hpriv u v p hR) h₁ h₂
          | false =>
            have hbf : b.hasFull = false := hfull.symm.trans hf
            rw [hf] at h₁; rw [hbf] at h₂
            simp only [Bool.false_eq_true, if_false] at h₁ h₂
            exact ih u v r₁ r₂ hR h₁ h₂
        | permissionsMask m =>
          rw [processGrants_cons_mask recur₁ ho g gs u a m ha hk] at h₁
          rw [processGrants_cons_mask recur₂ ho g gs v b m hb hk] at h₂
          rw [hfull] at h₁
          exact ih _ _ r₁ r₂ (hperm u v b.hasFull m hR) h₁ h₂

theorem processGrants_append (recur : Point → Except String Access) (ho : Bool) :
    ∀ (L₁ L₂ : List AccessGrant) (st : EnumAccum),
      processGrants recur ho (L₁ ++ L₂) st =
        match processGrants recur ho L₁ st with
        | Except.error e => Except.error e
        | Except.ok (Sum.inl a) => Except.ok (Sum.inl a)
        | Except.ok (Sum.inr st') => processGrants recur ho L₂ st'
  | [], L₂, st => by simp [processGrants]
  | g :: gs, L₂, st => by
    cases ha : recur g.byParticle with
    | error e => simp [processGrants, ha]
    | ok a =>
      cases hk : g.kind with
      | superGrant =>
        cases hs : a.hasSuper with
        | true =>
          rw [List.cons_append,
            processGrants_cons_super_hit recur ho g (gs ++ L₂) st a ha hk hs,
            processGrants_cons_super_hit recur ho g gs st a ha hk hs]
        | false =>
          rw [List.cons_append,
            processGrants_cons_super_miss recur ho g (gs ++ L₂) st a ha hk hs,
            processGrants_cons_super_miss recur ho g gs st a ha hk hs]
          exact processGrants_append recur ho gs L₂ st
      | privilege p =>
        rw [List.cons_append,
          processGrants_cons_priv recur ho g (gs ++ L₂) st a p ha hk,
          processGrants_cons_priv recur ho g gs st a p ha hk]
        exact processGrants_append recur ho gs L₂ _
      | permissionsMask m =>
        rw [List.cons_append,
          processGrants_cons_mask recur ho g (gs ++ L₂) st a m ha hk,
          processGrants_cons_mask recur ho g gs st a m ha hk]
        exact processGrants_append recur ho gs L₂ _

theorem processGrants_single_mask (recur : Point → Except String Access)
    (ho : Bool) (g : AccessGrant) (m : PermissionsMask)
    (hk : g.kind = AccessGrantKind.permissionsMask m) (st : EnumAccum) :
    processGrants recur ho [g] st =
      match recur g.byParticle with
      | Except.error e => Except.error e
      | Except.ok b => Except.ok (Sum.inr (permGrantStep b.hasFull m st)) := by
  cases ha : recur g.byParticle with
  | error e => simp [processGrants, ha]
  | ok b => simp [processGrants, ha, hk]

theorem grantsAtLevel_append (grants : List AccessGrant) (g : AccessGrant)
    (lvl : Point) (tp op : PointHierarchy) :
    grantsAtLevel (grants ++ [g]) lvl tp op =
      grantsAtLevel grants lvl tp op ++
        (if (decide (g.queryRoot = lvl) && (g.toPoint tp && g.onPoint op)) = true
         then [g] else []) := by
  simp only [grantsAtLevel, List.filter_append]
  congr 1
  by_cases h₁ : g.queryRoot = lvl
  · by_cases h₂ : (g.toPoint tp && g.onPoint op) = true
    · simp [List.filter, h₁, h₂]
    · simp [List.filter, h₁, h₂]
  · simp [List.filter, h₁]

theorem andMasksOf_append (gs₁ gs₂ : List AccessGrant) :
    andMasksOf (gs₁ ++ gs₂) = andMasksOf gs₁ ++ andMasksOf gs₂ := by
  simp [andMasksOf, List.filterMap_append]

theorem andMasksOf_single_mask (g : AccessGrant) (m : PermissionsMask)
    (hk : g.kind = AccessGrantKind.permissionsMask m) :
    andMasksOf [g] =
      if m.kind = PermissionsMaskKind.andMask then [m] else [] := by
  by_cases hm : m.kind = PermissionsMaskKind.andMask <;>
    simp [andMasksOf, List.filterMap, hk, hm]

/-- How the per-level And mask lists may differ after adding one mask grant:
each level either keeps its list or (only for an And mask) gains the new
mask at the end. -/
def AndsRel (mg : PermissionsMask)
    (x y : List (List PermissionsMask)) : Prop :=
  List.Forall₂
    (fun l₁ l₂ => l₂ = l₁ ∨
      (mg.kind = PermissionsMaskKind.andMask ∧ l₂ = l₁ ++ [mg])) x y

/-- Relational lemma for the traversal loop: against the grant table
extended with one mask grant the loop either early-returns the same Super
value, or ends with an R-related accumulator and AndsRel-related saved And
masks. -/
theorem levelLoop_rel (recur₁ recur₂ : Point → Except String Access)
    (grants : List AccessGrant) (g : AccessGrant) (mg : PermissionsMask)
    (hgk : g.kind = AccessGrantKind.permissionsMask mg)
    (ho : Bool) (tp op : PointHierarchy)
    (R : EnumAccum → EnumAccum → Prop)
    (hrec : ∀ p a b, recur₁ p = Except.ok a → recur₂ p = Except.ok b →
      a.hasSuper = b.hasSuper ∧ a.hasFull = b.hasFull)
    (hpriv : ∀ u v p, R u v →
      R { u with privileges := u.privileges ++ [p] }
        { v with privileges := v.privileges ++ [p] })
    (hperm : ∀ u v f m, R u v → R (permGrantStep f m u) (permGrantStep f m v))
    (hextra : ∀ u v f, R u v → R u (permGrantStep f mg v)) :
    ∀ (levels : List Point) (u v : EnumAccum)
      (ands₁ ands₂ : List (List PermissionsMask))
      (r₁ r₂ : Sum Access (EnumAccum × List (List PermissionsMask))),
      R u v → AndsRel mg ands₁ ands₂ →
      levelLoop recur₁ grants ho tp op levels u ands₁ = Except.ok r₁ →
      levelLoop recur₂ (grants ++ [g]) ho tp op levels v ands₂ = Except.ok r₂ →
      (∃ a, r₁ = Sum.inl a ∧ r₂ = Sum.inl a) ∨
      (∃ u' v' x y, r₁ = Sum.inr (u', x) ∧ r₂ = Sum.inr (v', y) ∧
        R u' v' ∧ AndsRel mg x y) := by
  intro levels
  induction levels with
  | nil =>
    intro u v ands₁ ands₂ r₁ r₂ hR hA h₁ h₂
    simp only [levelLoop, Except.ok.injEq] at h₁ h₂
    exact Or.inr ⟨u, v, ands₁, ands₂, h₁.symm, h₂.symm, hR, hA⟩
  | cons lvl rest ih =>
    intro u v ands₁ ands₂ r₁ r₂ hR hA h₁ h₂
    simp only [levelLoop] at h₁ h₂
    rw [grantsAtLevel_append grants g lvl tp op] at h₂
    rw [processGrants_append] at h₂
    cases hp₁ : processGrants recur₁ ho (grantsAtLevel grants lvl tp op) u with
    | error e =>
      rw [hp₁] at h₁
      exact Except.noConfusion h₁
    | ok s₁ =>
      cases hp₂ : processGrants recur₂ ho (grantsAtLevel grants lvl tp op) v with
      | error e =>
        rw [hp₂] at h₂
        exact Except.noConfusion h₂
      | ok s₂ =>
        rcases processGrants_rel recur₁ recur₂ ho R hrec hpriv hperm
            (grantsAtLevel grants lvl tp op) u v s₁ s₂ hR hp₁ hp₂ with
          ⟨a, rfl, rfl⟩ | ⟨u', v', rfl, rfl, hR'⟩
        · rw [hp₁] at h₁
          rw [hp₂] at h₂
          dsimp only at h₁ h₂
          simp only [Except.ok.injEq] at h₁ h₂
          exact Or.inl ⟨a, h₁.symm, h₂.symm⟩
        · rw [hp₁] at h₁
          rw [hp₂] at h₂
          dsimp only at h₁ h₂
          by_cases hcond :
            (decide (g.queryRoot = lvl) && (g.toPoint tp && g.onPoint op)) = true
          · rw [if_pos hcond] at h₂
            rw [processGrants_single_mask recur₂ ho g mg hgk v'] at h₂
            cases hb : recur₂ g.byParticle with
            | error e =>
              rw [hb] at h₂
              dsimp only at h₂
              exact Except.noConfusion h₂
            | ok b =>
              rw [hb] at h₂
              dsimp only at h₂
              rw [andMasksOf_append, andMasksOf_single_mask g mg hgk] at h₂
              cases hmk : mg.kind with
              | orMask =>
                rw [hmk, if_neg (by decide), List.append_nil] at h₂
                exact ih u' (permGrantStep b.hasFull mg v')
                  (ands₁ ++ [andMasksOf (grantsAtLevel grants lvl tp op)])
                  (ands₂ ++ [andMasksOf (grantsAtLevel grants lvl tp op)])
                  r₁ r₂ (hextra u' v' b.hasFull hR')
                  (List.rel_append hA
                    (List.Forall₂.cons (Or.inl rfl) List.Forall₂.nil))
                  h₁ h₂
              | andMask =>
                rw [hmk, if_pos (by decide)] at h₂
                exact ih u' (permGrantStep b.hasFull mg v')
                  (ands₁ ++ [andMasksOf (grantsAtLevel grants lvl tp op)])
                  (ands₂ ++ [andMasksOf (grantsAtLevel grants lvl tp op) ++ [mg]])
                  r₁ r₂ (hextra u' v' b.hasFull hR')
                  (List.rel_append hA
                    (List.Forall₂.cons (Or.inr ⟨hmk, rfl⟩) List.Forall₂.nil))
                  h₁ h₂
          · rw [if_neg hcond] at h₂
            simp only [List.append_nil] at h₂
            simp only [processGrants] at h₂
            exact ih u' v'
              (ands₁ ++ [andMasksOf (grantsAtLevel grants lvl tp op)])
              (ands₂ ++ [andMasksOf (grantsAtLevel grants lvl tp op)])
              r₁ r₂ hR'
              (List.rel_append hA
                (List.Forall₂.cons (Or.inl rfl) List.Forall₂.nil))
              h₁ h₂

theorem foldAndLevel_mono : ∀ (l : List PermissionsMask) (p q : Permissions),
    Permissions.le p q → Permissions.le (foldAndLevel l p) (foldAndLevel l q)
  | [], _, _, h => h
  | m :: ms, p, q, h =>
    foldAndLevel_mono ms _ _ (Permissions.and_mono p q m.permissions h)

theorem foldAndLevel_append (l : List PermissionsMask) (m : PermissionsMask)
    (p : Permissions) :
    foldAndLevel (l ++ [m]) p = (foldAndLevel l p).and m.permissions := by
  simp [foldAndLevel, List.foldl_append]

theorem applyAnds_eq_foldr (ands : List (List PermissionsMask))
    (p : Permissions) :
    applyAnds ands p = ands.foldr (fun lvl pm => foldAndLevel lvl pm) p := by
  simp [applyAnds, List.foldl_reverse]

theorem applyAnds_mono : ∀ (ands : List (List PermissionsMask))
    (p q : Permissions), Permissions.le p q →
    Permissions.le (applyAnds ands p) (applyAnds ands q) := by
  intro ands
  induction ands with
  | nil => intro p q h; simpa [applyAnds] using h
  | cons lvl rest ih =>
    intro p q h
    rw [applyAnds_eq_foldr, applyAnds_eq_foldr]
    simp only [List.foldr_cons]
    have ihq := ih p q h
    rw [applyAnds_eq_foldr, applyAnds_eq_foldr] at ihq
    exact foldAndLevel_mono lvl _ _ ihq

theorem AndsRel_or_eq (mg : PermissionsMask)
    (hmk : mg.kind = PermissionsMaskKind.orMask) :
    ∀ x y, AndsRel mg x y → y = x := by
  intro x y h
  induction h with
  | nil => rfl
  | cons hrel _ ih =>
    rcases hrel with rfl | ⟨hk, _⟩
    · rw [ih]
    · rw [hmk] at hk
      exact absurd hk (by decide)

theorem applyAnds_rel (mg : PermissionsMask) :
    ∀ x y, AndsRel mg x y → ∀ p q, Permissions.le q p →
      Permissions.le (applyAnds y q) (applyAnds x p) := by
  intro x y h
  induction h with
  | nil =>
    intro p q hle
    simpa [applyAnds] using hle
  | cons hrel _ ih =>
    intro p q hle
    rw [applyAnds_eq_foldr, applyAnds_eq_foldr, List.foldr_cons, List.foldr_cons]
    have ihq := ih p q hle
    rw [applyAnds_eq_foldr, applyAnds_eq_foldr] at ihq
    rcases hrel with rfl | ⟨_, rfl⟩
    · exact foldAndLevel_mono _ _ _ ihq
    · rw [foldAndLevel_append]
      exact Permissions.le_trans _ _ _
        (Permissions.and_le_left _ _) (foldAndLevel_mono _ _ _ ihq)

theorem accumLe_push (u v : EnumAccum) (p : Privilege) (h : accumLe u v) :
    accumLe { u with privileges := u.privileges ++ [p] }
      { v with privileges := v.privileges ++ [p] } :=
  ⟨privSub_append _ _ p h.1, h.2⟩

theorem accumLe_permStep (u v : EnumAccum) (f : Bool) (m : PermissionsMask)
    (h : accumLe u v) : accumLe (permGrantStep f m u) (permGrantStep f m v) := by
  by_cases hc : f = true ∧ m.kind = PermissionsMaskKind.orMask
  · simp only [permGrantStep, if_pos hc]
    exact ⟨h.1, Permissions.or_mono _ _ _ h.2⟩
  · simp only [permGrantStep, if_neg hc]
    exact h

theorem accumLe_permStep_right (u v : EnumAccum) (f : Bool)
    (m : PermissionsMask) (h : accumLe u v) :
    accumLe u (permGrantStep f m v) := by
  by_cases hc : f = true ∧ m.kind = PermissionsMaskKind.orMask
  · simp only [permGrantStep, if_pos hc]
    exact ⟨h.1, Permissions.le_trans _ _ _ h.2 (Permissions.le_or_left _ _)⟩
  · simp only [permGrantStep, if_neg hc]
    exact h

theorem permGrantStep_and_id (f : Bool) (mg : PermissionsMask)
    (hmk : mg.kind = PermissionsMaskKind.andMask) (v : EnumAccum) :
    permGrantStep f mg v = v := by
  simp [permGrantStep, hmk]

theorem addGrant_particles (s : Store) (g : AccessGrant) :
    (s.addGrant g).particles = s.particles := rfl

theorem addGrant_properties (s : Store) (g : AccessGrant) :
    (s.addGrant g).properties = s.properties := rfl

theorem addGrant_grants (s : Store) (g : AccessGrant) :
    (s.addGrant g).grants = s.grants ++ [g] := rfl

/-- Relational core of C2: adding one PermissionsMask grant to the store
changes every access verdict along grantRel: Super, SuperOwner and Owner
verdicts are retained exactly; an enumerated verdict widens under an Or
mask and narrows under an And mask. -/
theorem access_addGrant_rel (g : AccessGrant) (mg : PermissionsMask)
    (hgk : g.kind = AccessGrantKind.permissionsMask mg) :
    ∀ (n m : Nat) (s : Store) (toP onP : Point) (A B : Access),
      access n s toP onP = Except.ok A →
      access m (s.addGrant g) toP onP = Except.ok B →
      grantRel mg.kind A B := by
  intro n
  induction n with
  | zero =>
    intro m s toP onP A B h₁ _
    exact Except.noConfusion h₁
  | succ n ih =>
    intro m s toP onP A B h₁ h₂
    cases m with
    | zero => exact Except.noConfusion h₂
    | succ m =>
      simp only [access, addGrant_particles, addGrant_grants] at h₁ h₂
      by_cases hHyp : toP = HYPERUSER
      · rw [if_pos hHyp] at h₁ h₂
        by_cases hho :
            (s.particles.any fun r =>
              decide (r.point = onP) && decide (r.owner = toP)) = true
        · rw [if_pos hho] at h₁ h₂
          cases h₁; cases h₂
          exact grantRel_refl mg.kind Access.superAccess
        · rw [if_neg hho] at h₁ h₂
          cases h₁; cases h₂
          exact grantRel_refl mg.kind Access.superOwner
      · rw [if_neg hHyp] at h₁ h₂
        by_cases hOwn : toP = onP ∧
            (s.particles.any fun r =>
              decide (r.point = onP) && decide (r.owner = toP)) = true
        · rw [if_pos hOwn] at h₁ h₂
          cases h₁; cases h₂
          exact grantRel_refl mg.kind Access.owner
        · rw [if_neg hOwn] at h₁ h₂
          cases hqt : queryHierarchy s.particles toP with
          | error e =>
            rw [hqt] at h₁
            dsimp only at h₁
            exact Except.noConfusion h₁
          | ok tp =>
            rw [hqt] at h₁ h₂
            dsimp only at h₁ h₂
            cases hqo : queryHierarchy s.particles onP with
            | error e =>
              rw [hqo] at h₁
              dsimp only at h₁
              exact Except.noConfusion h₁
            | ok op =>
              rw [hqo] at h₁ h₂
              dsimp only at h₁ h₂
              cases hl₁ : levelLoop (fun b => access n s b onP) s.grants
                  (s.particles.any fun r =>
                    decide (r.point = onP) && decide (r.owner = toP))
                  tp op (traversalLevels onP) ⟨[], Permissions.nonePerm⟩ [] with
              | error e =>
                rw [hl₁] at h₁
                dsimp only at h₁
                exact Except.noConfusion h₁
              | ok res₁ =>
                cases hl₂ : levelLoop
                    (fun b => access m (s.addGrant g) b onP)
                    (s.grants ++ [g])
                    (s.particles.any fun r =>
                      decide (r.point = onP) && decide (r.owner = toP))
                    tp op (traversalLevels onP) ⟨[], Permissions.nonePerm⟩ [] with
                | error e =>
                  rw [hl₂] at h₂
                  dsimp only at h₂
                  exact Except.noConfusion h₂
                | ok res₂ =>
                  have hrec : ∀ p a b,
                      (fun b => access n s b onP) p = Except.ok a →
                      (fun b => access m (s.addGrant g) b onP) p = Except.ok b →
                      a.hasSuper = b.hasSuper ∧ a.hasFull = b.hasFull :=
                    fun p a b hpa hpb =>
                      grantRel_classifiers mg.kind a b (ih m s p onP a b hpa hpb)
                  cases hmgk : mg.kind with
                  | orMask =>
                    rcases levelLoop_rel (fun b => access n s b onP)
                        (fun b => access m (s.addGrant g) b onP)
                        s.grants g mg hgk
                        (s.particles.any fun r =>
                          decide (r.point = onP) && decide (r.owner = toP))
                        tp op accumLe hrec
                        (fun u v p h => accumLe_push u v p h)
                        (fun u v f mq h => accumLe_permStep u v f mq h)
                        (fun u v f h => accumLe_permStep_right u v f mg h)
                        (traversalLevels onP) ⟨[], Permissions.nonePerm⟩
                        ⟨[], Permissions.nonePerm⟩ [] []
                        res₁ res₂ ⟨privSub_refl [], Permissions.le_refl _⟩
                        List.Forall₂.nil hl₁ hl₂ with
                      ⟨a, rfl, rfl⟩ | ⟨u', v', x, y, rfl, rfl, hR', hA⟩
                    · rw [hl₁] at h₁
                      rw [hl₂] at h₂
                      dsimp only at h₁
                      dsimp only at h₂
                      cases h₁; cases h₂
                      exact grantRel_refl _ _
                    · rw [hl₁] at h₁
                      rw [hl₂] at h₂
                      dsimp only at h₁
                      dsimp only at h₂
                      by_cases hho :
                          (s.particles.any fun r =>
                            decide (r.point = onP) && decide (r.owner = toP))
                            = true
                      · rw [if_pos hho] at h₁ h₂
                        cases h₁; cases h₂
                        exact grantRel_refl _ Access.owner
                      · rw [if_neg hho] at h₁ h₂
                        cases h₁; cases h₂
                        have hyx : y = x := AndsRel_or_eq mg hmgk x y hA
                        subst hyx
                        exact ⟨hR'.1, applyAnds_mono _ _ _ hR'.2⟩
                  | andMask =>
                    rcases levelLoop_rel (fun b => access n s b onP)
                        (fun b => access m (s.addGrant g) b onP)
                        s.grants g mg hgk
                        (s.particles.any fun r =>
                          decide (r.point = onP) && decide (r.owner = toP))
                        tp op (fun u v => accumLe v u) hrec
                        (fun u v p h => accumLe_push v u p h)
                        (fun u v f mq h => accumLe_permStep v u f mq h)
                        (fun u v f h => by
                          rw [permGrantStep_and_id f mg hmgk v]
                          exact h)
                        (traversalLevels onP) ⟨[], Permissions.nonePerm⟩
                        ⟨[], Permissions.nonePerm⟩ [] []
                        res₁ res₂ ⟨privSub_refl [], Permissions.le_refl _⟩
                        List.Forall₂.nil hl₁ hl₂ with
                      ⟨a, rfl, rfl⟩ | ⟨u', v', x, y, rfl, rfl, hR', hA⟩
                    · rw [hl₁] at h₁
                      rw [hl₂] at h₂
                      dsimp only at h₁
                      dsimp only at h₂
                      cases h₁; cases h₂
                      exact grantRel_refl _ _
                    · rw [hl₁] at h₁
                      rw [hl₂] at h₂
                      dsimp only at h₁
                      dsimp only at h₂
                      by_cases hho :
                          (s.particles.any fun r =>
                            decide (r.point = onP) && decide (r.owner = toP))
                            = true
                      · rw [if_pos hho] at h₁ h₂
                        cases h₁; cases h₂
                        exact grantRel_refl _ Access.owner
                      · rw [if_neg hho] at h₁ h₂
                        cases h₁; cases h₂
                        exact ⟨hR'.1, applyAnds_rel mg _ _ hA _ _ hR'.2⟩

/-- A strict ancestor in the address tree: a proper prefix of the segment
list. -/
def Point.isAncestorOf (a p : Point) : Prop :=
  a.segments.isPrefixOf p.segments = true ∧ a ≠ p

theorem grantRel_retention (mk : PermissionsMaskKind) (A B : Access)
    (h : grantRel mk A B)
    (hfull : A = Access.superAccess ∨ A = Access.superOwner ∨ A = Access.owner) :
    B = A := by
  rcases hfull with rfl | rfl | rfl <;> cases B <;> simp_all [grantRel]

theorem grantRel_or_enum (A B : Access)
    (h : grantRel PermissionsMaskKind.orMask A B)
    (pv : List Privilege) (pm : Permissions) (hA : A = Access.enumerated pv pm) :
    ∃ pv' pm', B = Access.enumerated pv' pm' ∧ privSub pv pv' ∧
      Permissions.le pm pm' := by
  subst hA
  cases B with
  | enumerated pv' pm' => exact ⟨pv', pm', rfl, h.1, h.2⟩
  | superAccess => exact absurd h (by simp [grantRel])
  | superOwner => exact absurd h (by simp [grantRel])
  | owner => exact absurd h (by simp [grantRel])

theorem grantRel_and_enum (A B : Access)
    (h : grantRel PermissionsMaskKind.andMask A B)
    (pv : List Privilege) (pm : Permissions) (hA : A = Access.enumerated pv pm) :
    ∃ pv' pm', B = Access.enumerated pv' pm' ∧ privSub pv' pv ∧
      Permissions.le pm' pm := by
  subst hA
  cases B with
  | enumerated pv' pm' => exact ⟨pv', pm', rfl, h.1, h.2⟩
  | superAccess => exact absurd h (by simp [grantRel])
  | superOwner => exact absurd h (by simp [grantRel])
  | owner => exact absurd h (by simp [grantRel])

/-- C2.  Access monotonicity at a grant boundary: whenever access(to, on)
evaluates to A on a store and to B after one grant has been added, then for
an Or-mask grant B keeps a superset of A's permissions and privileges, for
an And-mask grant added at an ancestor of on B is a subset of A, and a
Super, SuperOwner or Owner verdict is retained exactly in both cases. -/
theorem access_grant_monotonic (s : Store) (toP onP : Point) (g : AccessGrant)
    (n m : Nat) (A B : Access)
    (h₁ : access n s toP onP = Except.ok A)
    (h₂ : access m (s.addGrant g) toP onP = Except.ok B) :
    (∀ mask, g.kind = AccessGrantKind.permissionsMask mask →
      mask.kind = PermissionsMaskKind.orMask →
      ((A = Access.superAccess ∨ A = Access.superOwner ∨ A = Access.owner) →
        B = A) ∧
      (∀ pv pm, A = Access.enumerated pv pm →
        ∃ pv' pm', B = Access.enumerated pv' pm' ∧ privSub pv pv' ∧
          Permissions.le pm pm')) ∧
    (∀ mask, g.kind = AccessGrantKind.permissionsMask mask →
      mask.kind = PermissionsMaskKind.andMask →
      Point.isAncestorOf g.queryRoot onP →
      ((A = Access.superAccess ∨ A = Access.superOwner ∨ A = Access.owner) →
        B = A) ∧
      (∀ pv pm, A = Access.enumerated pv pm →
        ∃ pv' pm', B = Access.enumerated pv' pm' ∧ privSub pv' pv ∧
          Permissions.le pm' pm)) := by
  constructor
  · intro mask hk hor
    have hrel := access_addGrant_rel g mask hk n m s toP onP A B h₁ h₂
    rw [hor] at hrel
    exact ⟨grantRel_retention _ A B hrel, grantRel_or_enum A B hrel⟩
  · intro mask hk hand _
    have hrel := access_addGrant_rel g mask hk n m s toP onP A B h₁ h₂
    rw [hand] at hrel
    exact ⟨grantRel_retention _ A B hrel, grantRel_and_enum A B hrel⟩

/-- Concrete store for the C2 witness: the particles scott and app, both
owned by the hyperuser, no grants. -/
def c2Store : Store :=
  ⟨[⟨⟨["scott"]⟩, "User", HYPERUSER, Status.ready, none, none⟩,
    ⟨⟨["app"]⟩, "App", HYPERUSER, Status.ready, none, none⟩], [], []⟩

/-- Concrete Or-mask grant for the C2 witness: grants read and execute on
app to everybody, by the hyperuser. -/
def c2OrGrant : AccessGrant :=
  ⟨AccessGrantKind.permissionsMask
      ⟨PermissionsMaskKind.orMask, ⟨false, false, false, true, false, true⟩⟩,
    fun _ => true, fun _ => true, HYPERUSER, ⟨["app"]⟩⟩

/-- Concrete And-mask grant for the C2 witness: restricts to read only, at
the root (an ancestor of app). -/
def c2AndGrant : AccessGrant :=
  ⟨AccessGrantKind.permissionsMask
      ⟨PermissionsMaskKind.andMask, ⟨false, false, false, true, false, false⟩⟩,
    fun _ => true, fun _ => true, HYPERUSER, ⟨[]⟩⟩

/-- Witness for C2: an Or-mask grant widens an enumerated verdict, an
And-mask grant at an ancestor narrows it. -/
theorem access_grant_monotonic_witness :
    (∃ pv' pm',
      (Access.enumerated [] ⟨false, false, false, true, false, true⟩ : Access)
        = Access.enumerated pv' pm' ∧ privSub [] pv' ∧
        Permissions.le Permissions.nonePerm pm') ∧
    (∃ pv' pm',
      (Access.enumerated [] ⟨false, false, false, true, false, false⟩ : Access)
        = Access.enumerated pv' pm' ∧ privSub pv' [] ∧
        Permissions.le pm' ⟨false, false, false, true, false, true⟩) := by
  constructor
  · exact ((access_grant_monotonic c2Store ⟨["scott"]⟩ ⟨["app"]⟩ c2OrGrant
        1 2 (Access.enumerated [] Permissions.nonePerm)
        (Access.enumerated [] ⟨false, false, false, true, false, true⟩)
        rfl rfl).1
      ⟨PermissionsMaskKind.orMask, ⟨false, false, false, true, false, true⟩⟩
      rfl rfl).2 [] Permissions.nonePerm rfl
  · exact ((access_grant_monotonic (c2Store.addGrant c2OrGrant) ⟨["scott"]⟩
        ⟨["app"]⟩ c2AndGrant 2 2
        (Access.enumerated [] ⟨false, false, false, true, false, true⟩)
        (Access.enumerated [] ⟨false, false, false, true, false, false⟩)
        rfl rfl).2
      ⟨PermissionsMaskKind.andMask, ⟨false, false, false, true, false, false⟩⟩
      rfl rfl ⟨by decide, by decide⟩).2 []
      ⟨false, false, false, true, false, true⟩ rfl

end Cosmic.Registry

namespace Cosmic.Star

open Cosmic

/-! ## Star router (C6, C7)

Embeds HyperStar::from_hyperway (star.rs lines 993-1037, with forward at
1040-1049) and HyperStar::to_hyperway (star.rs lines 1184-1224).  Waves,
surfaces and layers live in cosmic-space (not under src/) and are modelled
from the specification: a transport is a signal addressed star Core to star
Core carrying a hop count, and a hop wraps a transport for one lane
crossing. -/

/-- Modelled from the spec: the layer tags of a surface (section 3). -/
inductive Layer where
  | gravity
  | field
  | shell
  | core
  | portal
  | host
deriving DecidableEq, Repr

/-- Modelled from the spec: a surface is an address plus a layer tag. -/
structure Surface where
  point : Point
  layer : Layer
deriving DecidableEq, Repr

/-- Modelled from the spec: Point::to_surface with the default layer tag. -/
def pointSurface (p : Point) : Surface :=
  ⟨p, Layer.core⟩

/-- Modelled from the spec: the parts of a transport signal that
from_hyperway / to_hyperway inspect - its id, destination surface and hop
count. -/
structure TransportWave where
  id : Nat
  toSurface : Surface
  hops : Nat
deriving DecidableEq, Repr

/-- Modelled from the spec: a wave arriving from the hyperway is expected to
be a Hop envelope around a transport; anything else fails to unwrap. -/
inductive UltraWave where
  | hopWave (t : TransportWave)
  | otherWave
deriving DecidableEq, Repr

/-- Rust UltraWave::unwrap_from_hop. -/
def unwrapFromHop : UltraWave → Except String TransportWave
  | UltraWave.hopWave t => Except.ok t
  | UltraWave.otherWave => Except.error "expected a hop wave"

/-- What from_hyperway does with a surviving transport: inject it into the
local layer traversal (destination is this star) or forward it back out
through to_hyperway. -/
inductive FromHyperwayAct where
  | injectTraversal (t : TransportWave)
  | forwardHyperway (t : TransportWave)
deriving DecidableEq, Repr

/-- The hop count of the transport carried by an action. -/
def FromHyperwayAct.hops : FromHyperwayAct → Nat
  | FromHyperwayAct.injectTraversal t => t.hops
  | FromHyperwayAct.forwardHyperway t => t.hops

/-- HyperStar::from_hyperway (star.rs lines 993-1037): unwrap one Hop
envelope, increment the hop count once, drop the wave with an error when the
incremented count exceeds 255 (no injection, no forwarding, no reflection),
inject locally when addressed to this star, otherwise forward - which
errors on a non-forwarder star kind (star.rs lines 1040-1049). -/
def fromHyperway (selfPoint : Point) (forwarder : Bool) (w : UltraWave) :
    Except String FromHyperwayAct :=
  match unwrapFromHop w with
  | Except.error e => Except.error e
  | Except.ok t =>
    let t := { t with hops := t.hops + 1 }
    if t.hops > 255 then
      Except.error "transport signal exceeded max hops"
    else if t.toSurface.point = selfPoint then
      Except.ok (FromHyperwayAct.injectTraversal t)
    else if forwarder then
      Except.ok (FromHyperwayAct.forwardHyperway t)
    else
      Except.error "attempt to forward a transport on a non forwarding Star Kind"

/-- C6.  Hop bound: the hop count of a transport received from the hyperway
is incremented exactly once, and when the incremented count exceeds 255 the
wave is dropped with an error - it is neither injected into layer traversal
nor forwarded, and nothing is produced in reply; every action that is
produced carries exactly the once-incremented count, which is at most
255. -/
theorem from_hyperway_hop_bound (selfPoint : Point) (forwarder : Bool)
    (t : TransportWave) :
    (t.hops + 1 > 255 →
      fromHyperway selfPoint forwarder (UltraWave.hopWave t) =
        Except.error "transport signal exceeded max hops") ∧
    (∀ a, fromHyperway selfPoint forwarder (UltraWave.hopWave t) = Except.ok a →
      a.hops = t.hops + 1 ∧ t.hops + 1 ≤ 255) := by
  constructor
  · intro hgt
    simp [fromHyperway, unwrapFromHop, hgt]
  · intro a ha
    simp only [fromHyperway, unwrapFromHop] at ha
    by_cases hgt : t.hops + 1 > 255
    · rw [if_pos hgt] at ha
      exact Except.noConfusion ha
    · rw [if_neg hgt] at ha
      constructor
      · by_cases hself : t.toSurface.point = selfPoint
        · rw [if_pos hself] at ha
          cases ha
          rfl
        · rw [if_neg hself] at ha
          by_cases hfwd : forwarder = true
          · rw [if_pos hfwd] at ha
            cases ha
            rfl
          · rw [if_neg hfwd] at ha
            exact Except.noConfusion ha
      · omega

/-- Witness for C6: a transport at 255 hops is dropped; one at 3 hops is
injected carrying hop count 4. -/
theorem from_hyperway_hop_bound_witness :
    fromHyperway ⟨["star-a"]⟩ true
        (UltraWave.hopWave ⟨9, ⟨⟨["star-a"]⟩, Layer.core⟩, 255⟩) =
      Except.error "transport signal exceeded max hops" ∧
    ((FromHyperwayAct.injectTraversal
        ⟨9, ⟨⟨["star-a"]⟩, Layer.core⟩, 4⟩ : FromHyperwayAct).hops = 3 + 1 ∧
      3 + 1 ≤ 255) :=
  ⟨(from_hyperway_hop_bound ⟨["star-a"]⟩ true
      ⟨9, ⟨⟨["star-a"]⟩, Layer.core⟩, 255⟩).1 (by decide),
    (from_hyperway_hop_bound ⟨["star-a"]⟩ true
      ⟨9, ⟨⟨["star-a"]⟩, Layer.core⟩, 3⟩).2
      (FromHyperwayAct.injectTraversal ⟨9, ⟨⟨["star-a"]⟩, Layer.core⟩, 4⟩) rfl⟩

/-- A hop envelope: the destination surface for one lane crossing, and the
transport inside. -/
structure HopWave where
  toSurface : Surface
  transport : TransportWave
deriving DecidableEq, Repr

/-- Rust Wave::wrap_in_hop (the from surface plays no role in destination
selection). -/
def wrapInHop (t : TransportWave) (dest : Surface) : HopWave :=
  ⟨dest, t⟩

/-- The outcome of to_hyperway: a hop handed to the hyperway transmitter, an
error, or the unimplemented!() panic of the multi-forwarder arm. -/
inductive ToHyperwayOutcome where
  | sent (h : HopWave)
  | errNoForwarders (msg : String)
  | panicUnimplemented (msg : String)
deriving DecidableEq, Repr

/-- HyperStar::to_hyperway (star.rs lines 1184-1224): to itself the star
still wraps and loops the hop through the interchange; to an immediate
adjacency it hops directly; with exactly one forwarder adjacency it hops to
the forwarder; with none it errors; with more than one it panics with
unimplemented!(). -/
def toHyperway (selfPoint : Point) (adjacents : List Point)
    (forwarders : List Point) (t : TransportWave) : ToHyperwayOutcome :=
  if selfPoint = t.toSurface.point then
    ToHyperwayOutcome.sent (wrapInHop t (pointSurface selfPoint))
  else if adjacents.contains t.toSurface.point then
    ToHyperwayOutcome.sent (wrapInHop t t.toSurface)
  else
    match forwarders with
    | [f] => ToHyperwayOutcome.sent (wrapInHop t (pointSurface f))
    | [] => ToHyperwayOutcome.errNoForwarders
        "this star needs to send a transport to a non-adjacent star yet does not have any adjacent forwarders"
    | _ => ToHyperwayOutcome.panicUnimplemented
        "need to now send out a ripple search for the star being transported to"

/-- C7 counterexample: with two forwarder adjacencies and a destination that
is neither this star nor adjacent, to_hyperway does not perform a search -
it hits the unimplemented!() arm and panics; in particular no hop is sent
anywhere. -/
theorem to_hyperway_multi_forwarder_panics :
    toHyperway ⟨["star-a"]⟩ [] [⟨["fwd-1"]⟩, ⟨["fwd-2"]⟩]
        ⟨7, ⟨⟨["star-b"]⟩, Layer.core⟩, 0⟩ =
      ToHyperwayOutcome.panicUnimplemented
        "need to now send out a ripple search for the star being transported to" ∧
    ∀ h, toHyperway ⟨["star-a"]⟩ [] [⟨["fwd-1"]⟩, ⟨["fwd-2"]⟩]
        ⟨7, ⟨⟨["star-b"]⟩, Layer.core⟩, 0⟩ ≠ ToHyperwayOutcome.sent h := by
  refine ⟨rfl, ?_⟩
  intro h hc
  rw [show toHyperway ⟨["star-a"]⟩ [] [⟨["fwd-1"]⟩, ⟨["fwd-2"]⟩]
      ⟨7, ⟨⟨["star-b"]⟩, Layer.core⟩, 0⟩ =
    ToHyperwayOutcome.panicUnimplemented
      "need to now send out a ripple search for the star being transported to"
    from rfl] at hc
  exact ToHyperwayOutcome.noConfusion hc

/-- C7 as amended.  Destination selection in to_hyperway: a transport to
this star is wrapped in a hop and looped through the interchange; to an
immediate adjacency the hop goes directly; with exactly one forwarder
adjacency the hop goes to that forwarder; otherwise no search happens: with
no forwarder adjacency the call fails with an error, and with more than one
it panics on the unimplemented!() search arm. -/
theorem to_hyperway_destination (selfPoint : Point) (adjacents : List Point)
    (forwarders : List Point) (t : TransportWave) :
    (selfPoint = t.toSurface.point →
      toHyperway selfPoint adjacents forwarders t =
        ToHyperwayOutcome.sent (wrapInHop t (pointSurface selfPoint))) ∧
    (selfPoint ≠ t.toSurface.point →
      adjacents.contains t.toSurface.point = true →
      toHyperway selfPoint adjacents forwarders t =
        ToHyperwayOutcome.sent (wrapInHop t t.toSurface)) ∧
    (∀ f, selfPoint ≠ t.toSurface.point →
      adjacents.contains t.toSurface.point = false →
      forwarders = [f] →
      toHyperway selfPoint adjacents forwarders t =
        ToHyperwayOutcome.sent (wrapInHop t (pointSurface f))) ∧
    (selfPoint ≠ t.toSurface.point →
      adjacents.contains t.toSurface.point = false →
      forwarders = [] →
      toHyperway selfPoint adjacents forwarders t =
        ToHyperwayOutcome.errNoForwarders
          "this star needs to send a transport to a non-adjacent star yet does not have any adjacent forwarders") ∧
    (selfPoint ≠ t.toSurface.point →
      adjacents.contains t.toSurface.point = false →
      2 ≤ forwarders.length →
      toHyperway selfPoint adjacents forwarders t =
        ToHyperwayOutcome.panicUnimplemented
          "need to now send out a ripple search for the star being transported to") := by
  refine ⟨?_, ?_, ?_, ?_, ?_⟩
  · intro hself
    simp [toHyperway, hself]
  · intro hself hadj
    have hmem : t.toSurface.point ∈ adjacents := by simpa using hadj
    simp [toHyperway, hself, hmem]
  · intro f hself hadj hfwd
    subst hfwd
    have hmem : t.toSurface.point ∉ adjacents := by simpa using hadj
    simp [toHyperway, hself, hmem]
  · intro hself hadj hfwd
    subst hfwd
    have hmem : t.toSurface.point ∉ adjacents := by simpa using hadj
    simp [toHyperway, hself, hmem]
  · intro hself hadj hlen
    have hmem : t.toSurface.point ∉ adjacents := by simpa using hadj
    match forwarders, hlen with
    | f₁ :: f₂ :: rest, _ =>
      simp [toHyperway, hself, hmem]

/-- Witness for C7 as amended, exercising all five arms at concrete
inputs. -/
theorem to_hyperway_destination_witness :
    toHyperway ⟨["a"]⟩ [] [] ⟨1, ⟨⟨["a"]⟩, Layer.core⟩, 0⟩ =
      ToHyperwayOutcome.sent
        (wrapInHop ⟨1, ⟨⟨["a"]⟩, Layer.core⟩, 0⟩ (pointSurface ⟨["a"]⟩)) ∧
    toHyperway ⟨["a"]⟩ [⟨["b"]⟩] [] ⟨1, ⟨⟨["b"]⟩, Layer.core⟩, 0⟩ =
      ToHyperwayOutcome.sent
        (wrapInHop ⟨1, ⟨⟨["b"]⟩, Layer.core⟩, 0⟩ ⟨⟨["b"]⟩, Layer.core⟩) ∧
    toHyperway ⟨["a"]⟩ [] [⟨["f"]⟩] ⟨1, ⟨⟨["b"]⟩, Layer.core⟩, 0⟩ =
      ToHyperwayOutcome.sent
        (wrapInHop ⟨1, ⟨⟨["b"]⟩, Layer.core⟩, 0⟩ (pointSurface ⟨["f"]⟩)) ∧
    toHyperway ⟨["a"]⟩ [] [] ⟨1, ⟨⟨["b"]⟩, Layer.core⟩, 0⟩ =
      ToHyperwayOutcome.errNoForwarders
        "this star needs to send a transport to a non-adjacent star yet does not have any adjacent forwarders" ∧
    toHyperway ⟨["a"]⟩ [] [⟨["f"]⟩, ⟨["g"]⟩] ⟨1, ⟨⟨["b"]⟩, Layer.core⟩, 0⟩ =
      ToHyperwayOutcome.panicUnimplemented
        "need to now send out a ripple search for the star being transported to" :=
  ⟨(to_hyperway_destination ⟨["a"]⟩ [] [] ⟨1, ⟨⟨["a"]⟩, Layer.core⟩, 0⟩).1 rfl,
    (to_hyperway_destination ⟨["a"]⟩ [⟨["b"]⟩] []
      ⟨1, ⟨⟨["b"]⟩, Layer.core⟩, 0⟩).2.1 (by decide) (by decide),
    (to_hyperway_destination ⟨["a"]⟩ [] [⟨["f"]⟩]
      ⟨1, ⟨⟨["b"]⟩, Layer.core⟩, 0⟩).2.2.1 ⟨["f"]⟩ (by decide) (by decide) rfl,
    (to_hyperway_destination ⟨["a"]⟩ [] []
      ⟨1, ⟨⟨["b"]⟩, Layer.core⟩, 0⟩).2.2.2.1 (by decide) (by decide) rfl,
    (to_hyperway_destination ⟨["a"]⟩ [] [⟨["f"]⟩, ⟨["g"]⟩]
      ⟨1, ⟨⟨["b"]⟩, Layer.core⟩, 0⟩).2.2.2.2 (by decide) (by decide) (by decide)⟩

end Cosmic.Star

namespace Cosmic.Search

/-! ## Star search (C8)

Embeds on_star_search_hop of starlane/src/star.rs lines 557-661 (with
MAX_HOPS = 16 from line 251).  StarKey and StarKind live elsewhere in the
starlane crate and are modelled from the specification: for the receiving
logic only their equality and the kind's relay capability matter, and
single-match patterns are the StarKey patterns. -/

/-- Modelled from the spec: a structured star identifier; only equality is
used by the search hop logic. -/
abbrev StarKey := Nat

/-- Modelled from the spec: a star kind; relayB is StarKind::relay(),
whether the kind forwards searches. -/
structure StarKind where
  id : Nat
  relayB : Bool
deriving DecidableEq, Repr

/-- The search pattern: by key or by kind (spec section 4.5). -/
inductive StarSearchPattern where
  | starKey (k : StarKey)
  | starKind (k : StarKind)
deriving DecidableEq, Repr

/-- Modelled from the spec: single-match patterns are StarKey patterns. -/
def StarSearchPattern.isSingleMatch : StarSearchPattern → Bool
  | StarSearchPattern.starKey _ => true
  | StarSearchPattern.starKind _ => false

/-- The StarSearch frame: pattern, originator, the hops vector of stars
traversed, transaction correlators and the hop bound. -/
structure StarSearch where
  fromStar : StarKey
  pattern : StarSearchPattern
  hops : List StarKey
  transactions : List Nat
  maxHops : Nat
deriving DecidableEq, Repr

/-- A search hit: a star matching the pattern and its hop distance. -/
structure SearchHit where
  star : StarKey
  hops : Nat
deriving DecidableEq, Repr

/-- The parts of a StarSearchResult frame the claim is about: the hop path
and the hits. -/
structure StarSearchResult where
  hops : List StarKey
  hits : List SearchHit
deriving DecidableEq, Repr

/-- starlane/src/star.rs line 251. -/
def MAXHOPS : Nat := 16

/-- What on_star_search_hop does: send a StarSearchResult frame back on a
lane, silently reject an over-limit search, or rebroadcast excluding the
arrival lane while opening an aggregator transaction. -/
inductive SearchHopOutcome where
  | reply (lane : StarKey) (res : StarSearchResult)
  | rejectTooManyHops
  | rebroadcastExcluding (lane : StarKey)
deriving DecidableEq, Repr

/-- on_star_search_hop (star.rs lines 557-661): test the pattern against
this star; a single-match hit immediately replies on the arrival lane with
one SearchHit carrying search.hops.len() + 1; a search whose max_hops
exceeds MAX_HOPS is rejected; a search that has exhausted its hop budget, or
reached a star with at most one lane or a non-relay kind, replies with the
hit at search.hops.len() (or no hits); otherwise it rebroadcasts excluding
the arrival lane. -/
def onStarSearchHop (selfKey : StarKey) (selfKind : StarKind)
    (lanesCount : Nat) (laneKey : StarKey) (search : StarSearch) :
    SearchHopOutcome :=
  let hit :=
    match search.pattern with
    | StarSearchPattern.starKey k => decide (selfKey = k)
    | StarSearchPattern.starKind k => decide (selfKind = k)
  if hit = true ∧ search.pattern.isSingleMatch = true then
    SearchHopOutcome.reply laneKey
      ⟨search.hops, [⟨selfKey, search.hops.length + 1⟩]⟩
  else if search.maxHops > MAXHOPS then
    SearchHopOutcome.rejectTooManyHops
  else if search.hops.length + 1 > search.maxHops ∨ lanesCount ≤ 1 ∨
      selfKind.relayB = false then
    SearchHopOutcome.reply laneKey
      ⟨search.hops,
        if hit then [⟨selfKey, search.hops.length⟩] else []⟩
  else
    SearchHopOutcome.rebroadcastExcluding laneKey

/-- C8 counterexample: a StarKey search that hits the receiving star with a
two-entry hops vector is answered with a hit carrying hops = 3, not the
hops-vector length 2 the claim states. -/
theorem on_star_search_hop_off_by_one :
    onStarSearchHop 5 ⟨0, true⟩ 3 1
        ⟨1, StarSearchPattern.starKey 5, [1, 2], [], 16⟩ =
      SearchHopOutcome.reply 1 ⟨[1, 2], [⟨5, 3⟩]⟩ ∧
    onStarSearchHop 5 ⟨0, true⟩ 3 1
        ⟨1, StarSearchPattern.starKey 5, [1, 2], [], 16⟩ ≠
      SearchHopOutcome.reply 1 ⟨[1, 2], [⟨5, 2⟩]⟩ :=
  ⟨rfl, by decide⟩

/-- C8 as amended.  A StarSearch whose pattern is the single-match StarKey
pattern naming the receiving star is immediately answered on the lane it
arrived on with a StarSearchResult carrying exactly one SearchHit: the
receiving star, at hop count search.hops.length + 1 (one more than the
length of the hops vector). -/
theorem on_star_search_hop_single_match (selfKey : StarKey)
    (selfKind : StarKind) (lanesCount : Nat) (laneKey : StarKey)
    (search : StarSearch) (k : StarKey)
    (hp : search.pattern = StarSearchPattern.starKey k) (hk : k = selfKey) :
    onStarSearchHop selfKey selfKind lanesCount laneKey search =
      SearchHopOutcome.reply laneKey
        ⟨search.hops, [⟨selfKey, search.hops.length + 1⟩]⟩ := by
  subst hk
  simp [onStarSearchHop, hp, StarSearchPattern.isSingleMatch]

/-- Witness for C8 as amended at a concrete search. -/
theorem on_star_search_hop_single_match_witness :
    onStarSearchHop 5 ⟨0, true⟩ 3 1
        ⟨1, StarSearchPattern.starKey 5, [1, 2], [], 16⟩ =
      SearchHopOutcome.reply 1 ⟨[1, 2], [⟨5, 3⟩]⟩ :=
  on_star_search_hop_single_match 5 ⟨0, true⟩ 3 1
    ⟨1, StarSearchPattern.starKey 5, [1, 2], [], 16⟩ 5 rfl rfl

end Cosmic.Search

namespace Cosmic.Locator

open Cosmic Cosmic.Registry

/-! ## Particle location and provisioning (C9)

Embeds SmartLocator::locate and SmartLocator::provision_inner of
cosmic-hyperspace/src/star.rs lines 2011-2081, over the registry store of
the Registry section (record and set_status are translated from
cosmic-registry-postgres/src/lib.rs).  The wave exchange performed through
the star transmitter - including whatever the remote driver does to the
shared registry before replying - is outside this crate and is modelled as
an oracle; a spec-modelled driver below captures the specified behaviour of
the parent's kind driver. -/

/-- Modelled from the spec: the substances exchanged during provisioning - a
Provision body carrying the point, a location reply, or anything else. -/
inductive Substance where
  | location (star : Option Point) (host : Option Point)
  | provisionBody (p : Point)
  | empty
deriving DecidableEq, Repr

/-- Modelled from the spec: the location substance {star, host}. -/
structure ParticleLocation where
  star : Option Point
  host : Option Point
deriving DecidableEq, Repr

/-- Modelled from the spec: the hyper method of the provisioning ping. -/
inductive HypMethod where
  | provision
deriving DecidableEq, Repr

/-- Modelled from the spec: the parts of the directed ping that
provision_inner constructs: from surface, to surface, method and body. -/
structure Ping where
  fromSurface : Star.Surface
  toSurface : Star.Surface
  method : HypMethod
  body : Substance
deriving DecidableEq, Repr

/-- Modelled from the spec: a pong reply with a status code and a body. -/
structure Pong where
  status : Nat
  body : Substance
deriving DecidableEq, Repr

/-- The provisioning ping for point p, addressed Core to Core from this
star to the parent's owning star (star.rs lines 2049-2054). -/
def corePing (selfPoint parentStar p : Point) : Ping :=
  ⟨⟨selfPoint, Star.Layer.core⟩, ⟨parentStar, Star.Layer.core⟩,
    HypMethod.provision, Substance.provisionBody p⟩

/-- The exchange oracle: what the star transmitter returns for a ping, and
the registry store as the remote side leaves it.  Everything the remote
driver does is folded into this function. -/
abbrev Exchange := Ping → Store → Pong × Store

/-- PostgresRegistry::set_status (lib.rs lines 355-376): requires a parent
and a last segment, then updates the status column of the matching row. -/
def setStatus (s : Store) (p : Point) (st : Status) : Except String Store :=
  match p.parentP with
  | none => Except.error "particle must have a parent"
  | some _ =>
    match p.segments.getLast? with
    | none => Except.error "particle must have a last segment"
    | some _ =>
      Except.ok { s with particles := s.particles.map fun r =>
        if r.point = p then { r with status := st } else r }

/-- SmartLocator::provision_inner (star.rs lines 2032-2081).  Returns the
pings sent, the registry store as left behind, and the outcome.  The
recursion of the source is on the parent point; the fuel bounds it and is
ample at the point's depth.  Root has no parent: provisioning it fails with
"expected Root to be provisioned".  If the parent has no star it is
provisioned first and its record re-fetched (an unwrap panic if the star is
still missing).  Then one Provision ping goes Core to Core to the parent's
star: a 200 reply must carry a location substance, which is returned; any
other status sets the point's status to Panic and fails with an error
annotated with the point's kind (template) when its record can be
fetched. -/
def provisionInner (ex : Exchange) (selfPoint : Point) :
    Nat → Store → Point → List Ping × Store × Except String ParticleLocation
  | 0, s, _ => ([], s, Except.error "provision recursion exhausted")
  | fuel + 1, s, p =>
    match p.parentP with
    | none => ([], s, Except.error "expected Root to be provisioned")
    | some q =>
      match recordFor s.particles q with
      | Except.error e => ([], s, Except.error e)
      | Except.ok qr =>
        let step :
            List Ping × Store × Except String ParticleRow :=
          if qr.star = none then
            match provisionInner ex selfPoint fuel s q with
            | (pg, s', Except.error e) => (pg, s', Except.error e)
            | (pg, s', Except.ok _) =>
              match recordFor s'.particles q with
              | Except.error e => (pg, s', Except.error e)
              | Except.ok qr' => (pg, s', Except.ok qr')
          else ([], s, Except.ok qr)
        match step with
        | (pg, s', Except.error e) => (pg, s', Except.error e)
        | (pg, s', Except.ok qr') =>
          match qr'.star with
          | none => (pg, s', Except.error "panic: called unwrap on a None value")
          | some parentStar =>
            let ping := corePing selfPoint parentStar p
            let res := ex ping s'
            if res.1.status = 200 then
              match res.1.body with
              | Substance.location st h =>
                (pg ++ [ping], res.2, Except.ok ⟨st, h⟩)
              | _ =>
                (pg ++ [ping], res.2,
                  Except.error "Provision result expected Substance Point")
            else
              match setStatus res.2 p Status.panicStatus with
              | Except.error e => (pg ++ [ping], res.2, Except.error e)
              | Except.ok s₃ =>
                match recordFor s₃.particles p with
                | Except.ok r =>
                  (pg ++ [ping], s₃,
                    Except.error ("failed to provision " ++ p.render ++ "<"
                      ++ r.kindBase ++ "> status code "
                      ++ toString res.1.status))
                | Except.error _ =>
                  (pg ++ [ping], s₃,
                    Except.error ("failed to provision " ++ p.render))

/-- SmartLocator::locate (star.rs lines 2011-2020): fetch the record; when
its location has a star return it, otherwise provision. -/
def locate (ex : Exchange) (selfPoint : Point) (fuel : Nat) (s : Store)
    (p : Point) : List Ping × Store × Except String ParticleLocation :=
  match recordFor s.particles p with
  | Except.error e => ([], s, Except.error e)
  | Except.ok r =>
    match r.star with
    | some _ => ([], s, Except.ok ⟨r.star, r.host⟩)
    | none => provisionInner ex selfPoint fuel s p

/-- Modelled from the spec: the parent's kind driver answers a Provision
ping by choosing a star for the point, installing it as the particle's
location in the registry, and replying 200 with the location substance
(spec section 4.5; the driver code is not under src/). -/
def specProvisionDriver (choose : Point → Point) : Exchange :=
  fun ping s =>
    match ping.body with
    | Substance.provisionBody x =>
      (⟨200, Substance.location (some (choose x)) none⟩,
        { s with particles := s.particles.map fun r =>
            if r.point = x then { r with star := some (choose x) } else r })
    | _ => (⟨500, Substance.empty⟩, s)

theorem setStatus_ok_of_parent (s : Store) (p : Point) (st : Status)
    (q : Point) (hq : p.parentP = some q) :
    setStatus s p st = Except.ok { s with particles := s.particles.map fun r =>
      if r.point = p then { r with status := st } else r } := by
  have hne : p.segments ≠ [] := by
    intro hnil
    unfold Point.parentP at hq
    rw [hnil] at hq
    exact Option.noConfusion hq
  simp only [setStatus, hq]
  cases hlast : p.segments.getLast? with
  | none => exact absurd (List.getLast?_eq_none_iff.mp hlast) (by
      intro h
      exact hne h)
  | some seg => rfl

theorem find?_point_map_update (p : Point) (f : ParticleRow → ParticleRow)
    (hf : ∀ r, (f r).point = r.point) : ∀ rows : List ParticleRow,
    (rows.map f).find? (fun r => decide (r.point = p)) =
      (rows.find? fun r => decide (r.point = p)).map f
  | [] => rfl
  | r :: rest => by
    by_cases hr : r.point = p
    · simp [List.find?_cons, hf, hr]
    · simp [List.find?_cons, hf, hr, find?_point_map_update p f hf rest]

theorem recordFor_map_update (rows : List ParticleRow) (p : Point)
    (f : ParticleRow → ParticleRow) (hf : ∀ r, (f r).point = r.point)
    (rp : ParticleRow) (hroot : p.isRoot = false)
    (h : recordFor rows p = Except.ok rp) :
    recordFor (rows.map f) p = Except.ok (f rp) := by
  simp only [recordFor, hroot, Bool.false_eq_true, if_false] at h ⊢
  rw [find?_point_map_update p f hf rows]
  cases hfind : rows.find? fun r => decide (r.point = p) with
  | none =>
    rw [hfind] at h
    exact Except.noConfusion h
  | some r =>
    rw [hfind] at h
    cases h
    rfl

/-- Reduction of provision_inner when the parent is already provisioned:
exactly one Core-to-Core Provision ping is exchanged and the reply decides
the outcome. -/
theorem provisionInner_parent_ready (ex : Exchange) (selfPoint : Point)
    (fuel : Nat) (s : Store) (p q : Point) (qr : ParticleRow) (st : Point)
    (hq : p.parentP = some q) (hqr : recordFor s.particles q = Except.ok qr)
    (hst : qr.star = some st) :
    provisionInner ex selfPoint (fuel + 1) s p =
      (if (ex (corePing selfPoint st p) s).1.status = 200 then
        match (ex (corePing selfPoint st p) s).1.body with
        | Substance.location lst lh =>
          ([corePing selfPoint st p], (ex (corePing selfPoint st p) s).2,
            Except.ok ⟨lst, lh⟩)
        | _ =>
          ([corePing selfPoint st p], (ex (corePing selfPoint st p) s).2,
            Except.error "Provision result expected Substance Point")
      else
        match setStatus (ex (corePing selfPoint st p) s).2 p
            Status.panicStatus with
        | Except.error e =>
          ([corePing selfPoint st p], (ex (corePing selfPoint st p) s).2,
            Except.error e)
        | Except.ok s₃ =>
          match recordFor s₃.particles p with
          | Except.ok r =>
            ([corePing selfPoint st p], s₃,
              Except.error ("failed to provision " ++ p.render ++ "<"
                ++ r.kindBase ++ "> status code "
                ++ toString (ex (corePing selfPoint st p) s).1.status))
          | Except.error _ =>
            ([corePing selfPoint st p], s₃,
              Except.error ("failed to provision " ++ p.render))) := by
  simp only [provisionInner, hq, hqr, hst]
  rw [if_neg (by simp)]
  simp only [hst, List.nil_append]

/-- C9.  Locate and provision: a point whose record has no owning star is
provisioned; provisioning fails when the point has no parent (the root);
with a provisioned parent exactly one Provision ping is sent, addressed
Core to Core to the parent's owning star, and a 200 reply returns the
location carried in the reply body while any other status sets the point's
status to Panic and returns an error annotated with the point's kind when
its record can be fetched; with an unprovisioned parent the parent is
provisioned first (its pings precede this point's); and under the
spec-modelled parent driver the returned location is installed in the
registry. -/
theorem smart_locator_provision (ex : Exchange) (selfPoint : Point)
    (fuel : Nat) (s : Store) (p : Point) :
    (∀ r, recordFor s.particles p = Except.ok r → r.star = none →
      locate ex selfPoint fuel s p = provisionInner ex selfPoint fuel s p) ∧
    (p.parentP = none →
      provisionInner ex selfPoint (fuel + 1) s p =
        ([], s, Except.error "expected Root to be provisioned")) ∧
    (∀ q qr st, p.parentP = some q →
      recordFor s.particles q = Except.ok qr → qr.star = some st →
      ((provisionInner ex selfPoint (fuel + 1) s p).1 =
          [corePing selfPoint st p] ∧
        ((ex (corePing selfPoint st p) s).1.status = 200 →
          ∀ lstar lhost,
            (ex (corePing selfPoint st p) s).1.body =
              Substance.location lstar lhost →
            (provisionInner ex selfPoint (fuel + 1) s p).2.2 =
              Except.ok ⟨lstar, lhost⟩) ∧
        ((ex (corePing selfPoint st p) s).1.status ≠ 200 →
          ∃ s₃, setStatus (ex (corePing selfPoint st p) s).2 p
              Status.panicStatus = Except.ok s₃ ∧
            (provisionInner ex selfPoint (fuel + 1) s p).2.1 = s₃ ∧
            ∀ rp, recordFor s₃.particles p = Except.ok rp →
              (provisionInner ex selfPoint (fuel + 1) s p).2.2 =
                Except.error ("failed to provision " ++ p.render ++ "<"
                  ++ rp.kindBase ++ "> status code "
                  ++ toString (ex (corePing selfPoint st p) s).1.status)))) ∧
    (∀ q qr, p.parentP = some q →
      recordFor s.particles q = Except.ok qr → qr.star = none →
      ∃ tail, (provisionInner ex selfPoint (fuel + 1) s p).1 =
        (provisionInner ex selfPoint fuel s q).1 ++ tail) ∧
    (∀ choose q qr st rp, p.parentP = some q →
      recordFor s.particles q = Except.ok qr → qr.star = some st →
      recordFor s.particles p = Except.ok rp → p.isRoot = false →
      (provisionInner (specProvisionDriver choose) selfPoint (fuel + 1) s
          p).2.2 = Except.ok ⟨some (choose p), none⟩ ∧
      recordFor ((provisionInner (specProvisionDriver choose) selfPoint
          (fuel + 1) s p).2.1).particles p =
        Except.ok { rp with star := some (choose p) }) := by
  refine ⟨?_, ?_, ?_, ?_, ?_⟩
  · intro r hrec hstar
    simp [locate, hrec, hstar]
  · intro hp
    simp [provisionInner, hp]
  · intro q qr st hq hqr hst
    rw [provisionInner_parent_ready ex selfPoint fuel s p q qr st hq hqr hst]
    by_cases h200 : (ex (corePing selfPoint st p) s).1.status = 200
    · rw [if_pos h200]
      refine ⟨?_, ?_, ?_⟩
      · cases hb : (ex (corePing selfPoint st p) s).1.body <;> simp [hb]
      · intro _ lstar lhost hb
        simp [hb]
      · intro hne
        exact absurd h200 hne
    · rw [if_neg h200]
      rw [setStatus_ok_of_parent (ex (corePing selfPoint st p) s).2 p
        Status.panicStatus q hq]
      refine ⟨?_, ?_, ?_⟩
      · cases hrp : recordFor ({ (ex (corePing selfPoint st p) s).2 with
            particles := (ex (corePing selfPoint st p) s).2.particles.map
              fun r => if r.point = p then { r with status :=
                Status.panicStatus } else r } : Store).particles p <;>
          simp [hrp]
      · intro h200'
        exact absurd h200' h200
      · intro _
        refine ⟨_, rfl, ?_, ?_⟩
        · cases hrp : recordFor ({ (ex (corePing selfPoint st p) s).2 with
              particles := (ex (corePing selfPoint st p) s).2.particles.map
                fun r => if r.point = p then { r with status :=
                  Status.panicStatus } else r } : Store).particles p <;>
            simp [hrp]
        · intro rp hrp
          simp [hrp]
  · intro q qr hq hqr hst
    simp only [provisionInner, hq, hqr, hst]
    simp only [if_true]
    rcases hrec : provisionInner ex selfPoint fuel s q with ⟨pg, s', res⟩
    cases res with
    | error e =>
      exact ⟨[], by simp⟩
    | ok l =>
      cases hqr' : recordFor s'.particles q with
      | error e => exact ⟨[], by simp [hqr']⟩
      | ok qr' =>
        cases hst' : qr'.star with
        | none => exact ⟨[], by simp [hqr', hst']⟩
        | some parentStar =>
          by_cases h200 : (ex (corePing selfPoint parentStar p) s').1.status = 200
          · cases hb : (ex (corePing selfPoint parentStar p) s').1.body with
            | location lst lh =>
              exact ⟨[corePing selfPoint parentStar p],
                by simp [hqr', hst', h200, hb]⟩
            | provisionBody x =>
              exact ⟨[corePing selfPoint parentStar p],
                by simp [hqr', hst', h200, hb]⟩
            | empty =>
              exact ⟨[corePing selfPoint parentStar p],
                by simp [hqr', hst', h200, hb]⟩
          · cases hset : setStatus (ex (corePing selfPoint parentStar p) s').2 p
                Status.panicStatus with
            | error e =>
              exact ⟨[corePing selfPoint parentStar p],
                by simp [hqr', hst', h200, hset]⟩
            | ok s₃ =>
              cases hrp : recordFor s₃.particles p with
              | error e =>
                exact ⟨[corePing selfPoint parentStar p],
                  by simp [hqr', hst', h200, hset, hrp]⟩
              | ok rp =>
                exact ⟨[corePing selfPoint parentStar p],
                  by simp [hqr', hst', h200, hset, hrp]⟩
  · intro choose q qr st rp hq hqr hst hrp hroot
    rw [provisionInner_parent_ready (specProvisionDriver choose) selfPoint
      fuel s p q qr st hq hqr hst]
    have hdrv : specProvisionDriver choose (corePing selfPoint st p) s =
        (⟨200, Substance.location (some (choose p)) none⟩,
          { s with particles := s.particles.map fun r =>
              if r.point = p then { r with star := some (choose p) }
              else r }) := rfl
    rw [hdrv]
    have hpt : rp.point = p := by
      simp only [recordFor, hroot, Bool.false_eq_true, if_false] at hrp
      cases hfind : s.particles.find? fun r => decide (r.point = p) with
      | none =>
        rw [hfind] at hrp
        exact Except.noConfusion hrp
      | some r =>
        rw [hfind] at hrp
        cases hrp
        simpa using List.find?_some hfind
    constructor
    · rfl
    · show recordFor (s.particles.map fun r =>
          if r.point = p then { r with star := some (choose p) } else r) p =
        Except.ok { rp with star := some (choose p) }
      have hupd := recordFor_map_update s.particles p
        (fun r => if r.point = p then { r with star := some (choose p) } else r)
        (fun r => by by_cases hr : r.point = p <;> simp [hr]) rp hroot hrp
      rw [hupd]
      simp [hpt]

/-- Concrete parent row for the C9 witness: space, provisioned on star-p. -/
def c9SpaceRow : ParticleRow :=
  ⟨⟨["space"]⟩, "Space", HYPERUSER, Status.ready, some ⟨["star-p"]⟩, none⟩

/-- Concrete child row for the C9 witness: space:app, not yet
provisioned. -/
def c9AppRow : ParticleRow :=
  ⟨⟨["space", "app"]⟩, "App", HYPERUSER, Status.pending, none, none⟩

/-- Concrete store for the C9 witness. -/
def c9Store : Store :=
  ⟨[c9SpaceRow, c9AppRow], [], []⟩

/-- An exchange that always answers 500, for the failure path of the C9
witness. -/
def c9Fail : Exchange :=
  fun _ s => (⟨500, Substance.empty⟩, s)

/-- Witness for C9 at the concrete space:app scenario: locate provisions,
exactly one Core-to-Core ping goes to the parent's star, the spec-modelled
driver's 200 reply returns and installs the location, and a 500 reply sets
Panic and yields the annotated error. -/
theorem smart_locator_provision_witness :
    locate (specProvisionDriver fun _ => ⟨["star-d"]⟩) ⟨["star-a"]⟩ 2 c9Store
        ⟨["space", "app"]⟩ =
      provisionInner (specProvisionDriver fun _ => ⟨["star-d"]⟩) ⟨["star-a"]⟩
        2 c9Store ⟨["space", "app"]⟩ ∧
    (provisionInner (specProvisionDriver fun _ => ⟨["star-d"]⟩) ⟨["star-a"]⟩
        2 c9Store ⟨["space", "app"]⟩).1 =
      [corePing ⟨["star-a"]⟩ ⟨["star-p"]⟩ ⟨["space", "app"]⟩] ∧
    (provisionInner (specProvisionDriver fun _ => ⟨["star-d"]⟩) ⟨["star-a"]⟩
        2 c9Store ⟨["space", "app"]⟩).2.2 =
      Except.ok ⟨some ⟨["star-d"]⟩, none⟩ ∧
    recordFor ((provisionInner (specProvisionDriver fun _ => ⟨["star-d"]⟩)
        ⟨["star-a"]⟩ 2 c9Store ⟨["space", "app"]⟩).2.1).particles
        ⟨["space", "app"]⟩ =
      Except.ok { c9AppRow with star := some ⟨["star-d"]⟩ } ∧
    ∃ s₃, setStatus (c9Fail (corePing ⟨["star-a"]⟩ ⟨["star-p"]⟩
          ⟨["space", "app"]⟩) c9Store).2 ⟨["space", "app"]⟩
        Status.panicStatus = Except.ok s₃ ∧
      (provisionInner c9Fail ⟨["star-a"]⟩ 2 c9Store
          ⟨["space", "app"]⟩).2.1 = s₃ ∧
      ∀ rp, recordFor s₃.particles ⟨["space", "app"]⟩ = Except.ok rp →
        (provisionInner c9Fail ⟨["star-a"]⟩ 2 c9Store
            ⟨["space", "app"]⟩).2.2 =
          Except.error ("failed to provision "
            ++ Point.render ⟨["space", "app"]⟩ ++ "<" ++ rp.kindBase
            ++ "> status code "
            ++ toString (c9Fail (corePing ⟨["star-a"]⟩ ⟨["star-p"]⟩
                ⟨["space", "app"]⟩) c9Store).1.status) := by
  refine ⟨?_, ?_, ?_, ?_, ?_⟩
  · exact (smart_locator_provision (specProvisionDriver fun _ => ⟨["star-d"]⟩)
      ⟨["star-a"]⟩ 2 c9Store ⟨["space", "app"]⟩).1 c9AppRow rfl rfl
  · exact ((smart_locator_provision (specProvisionDriver fun _ => ⟨["star-d"]⟩)
      ⟨["star-a"]⟩ 1 c9Store ⟨["space", "app"]⟩).2.2.1 ⟨["space"]⟩ c9SpaceRow
      ⟨["star-p"]⟩ rfl rfl rfl).1
  · exact ((smart_locator_provision (specProvisionDriver fun _ => ⟨["star-d"]⟩)
      ⟨["star-a"]⟩ 1 c9Store ⟨["space", "app"]⟩).2.2.2.2
      (fun _ => ⟨["star-d"]⟩) ⟨["space"]⟩ c9SpaceRow ⟨["star-p"]⟩ c9AppRow
      rfl rfl rfl rfl rfl).1
  · exact ((smart_locator_provision (specProvisionDriver fun _ => ⟨["star-d"]⟩)
      ⟨["star-a"]⟩ 1 c9Store ⟨["space", "app"]⟩).2.2.2.2
      (fun _ => ⟨["star-d"]⟩) ⟨["space"]⟩ c9SpaceRow ⟨["star-p"]⟩ c9AppRow
      rfl rfl rfl rfl rfl).2
  · exact ((smart_locator_provision c9Fail ⟨["star-a"]⟩ 1 c9Store
      ⟨["space", "app"]⟩).2.2.1 ⟨["space"]⟩ c9SpaceRow ⟨["star-p"]⟩
      rfl rfl rfl).2.2 (by decide)

end Cosmic.Locator
